import Mathlib

/-!
# A regular placeholder for `void` (`include/void/void.h`)

The header is almost entirely compile-time: a placeholder type `vd::Void`, the type
transformations `wrap_void` / `unwrap_void`, the call wrapper `vd::invoke` (two overloads of
`detail::invoke_t::operator()`), the query `void_result_t` and the concept `vd::invocable`.

The embedding below represents C++ types as data, the type traits of `<type_traits>` that
the header uses as functions on that data, and a call as a state-passing function.  What the
header takes from its environment (which calls `INVOKE(f, args...)` are well-formed, the
declared return type and the body of the function such a call selects) is a parameter,
`Program`.  The feature-test macros the header branches on are a parameter too, `Config`,
so that every preprocessor branch is covered.

Scope of the type model: `void`, and object types that are scalars, complete class types, the
placeholder itself or classes with it as a base, each with const/volatile qualification and
as an lvalue or rvalue reference.  Array and function types are not types of the model; where
the header forms a function type that returns its template argument, they appear as template
arguments (`TypeArg`) of which only that is recorded.
-/

namespace vd

/-! ## Feature-test macros -/

/-- Feature-test macros that select the header's preprocessor branches. -/
structure Config where
  /-- `__cpp_lib_three_way_comparison` is defined. -/
  cpp_lib_three_way_comparison : Bool
  /-- `__cpp_concepts` is defined. -/
  cpp_concepts : Bool
  /-- `__cpp_lib_remove_cvref` is defined. -/
  cpp_lib_remove_cvref : Bool
  deriving DecidableEq

/-! ## C++ types -/

/-- How `vd::Void` is a base class of a class type. -/
inductive Void_base where
  /-- It is not a base class. -/
  | absent
  /-- It is a public, unambiguous base class: the class converts to `Void`. -/
  | accessible
  /-- It is a base class that is private, protected or ambiguous: `std::is_base_of` holds, the
  conversion to `Void` is ill-formed. -/
  | hidden
  deriving DecidableEq

/-- Cv-unqualified object types. -/
inductive Obj where
  /-- The placeholder class `vd::Void`. -/
  | Void
  /-- A scalar type (arithmetic, enumeration, pointer, function pointer), by index. -/
  | scalar (n : Nat)
  /-- A class type, by index, that does not have `vd::Void` as a base class and that a
  function call can yield as a temporary: it is not abstract and its destructor is accessible
  and not deleted. -/
  | cls (n : Nat)
  /-- A class type, by index, that is derived from `vd::Void` publicly and unambiguously and
  that a function call can yield as a temporary. -/
  | derived (n : Nat)
  /-- Any other class type, by index: how `vd::Void` is a base class of it, and whether a
  function call can yield it as a temporary (not so for an abstract class, nor for a class
  whose destructor is deleted or inaccessible). -/
  | cls_of (n : Nat) (base : Void_base) (returned : Bool)
  deriving DecidableEq

/-- An object type with its top-level const/volatile qualification. -/
structure CvObj where
  base : Obj
  c : Bool
  v : Bool
  deriving DecidableEq

/-- The types of the model: cv `void`, a cv-qualified object type, or a reference to one. -/
inductive Ty where
  | void (c v : Bool)
  | val (t : CvObj)
  | lref (t : CvObj)
  | rref (t : CvObj)
  deriving DecidableEq

/-- The type `vd::Void`, unqualified. -/
def Ty.Void : Ty := Ty.val ⟨Obj.Void, false, false⟩

/-- The type `void`, unqualified. -/
def Ty.real_void : Ty := Ty.void false false

/-- Whether an object type is a class type. -/
def Obj.is_class : Obj → Bool
  | Obj.scalar _ => false
  | _ => true

/-! ## The traits of `<type_traits>` used by the header -/

/-- The trait `std::is_void_v<T>`: `T` is cv `void`. -/
def is_void_v : Ty → Bool
  | Ty.void _ _ => true
  | _ => false

/-- The trait `std::is_same_v<T, U>`. -/
def is_same_v (T U : Ty) : Bool := decide (T = U)

/-- The concept `std::same_as<T, U>`: `is_same_v` in both directions. -/
def same_as (T U : Ty) : Bool := is_same_v T U && is_same_v U T

/-- The trait `std::remove_reference_t<T>`. -/
def remove_reference_t : Ty → Ty
  | Ty.lref t => Ty.val t
  | Ty.rref t => Ty.val t
  | T => T

/-- The trait `std::remove_cv_t<T>`: drops top-level cv; a reference type has none. -/
def remove_cv_t : Ty → Ty
  | Ty.void _ _ => Ty.void false false
  | Ty.val t => Ty.val ⟨t.base, false, false⟩
  | T => T

/-- The trait `std::remove_cvref_t<T>` (C++20). -/
def remove_cvref_t : Ty → Ty
  | Ty.void _ _ => Ty.void false false
  | Ty.val t => Ty.val ⟨t.base, false, false⟩
  | Ty.lref t => Ty.val ⟨t.base, false, false⟩
  | Ty.rref t => Ty.val ⟨t.base, false, false⟩

/-- The trait `std::decay_t<T>`.  With `U = remove_reference_t<T>`, an array or function `U`
decays to a pointer (no such type in the model), every other `U` to `remove_cv_t<U>`. -/
def decay_t (T : Ty) : Ty := remove_cv_t (remove_reference_t T)

/-- The trait `std::add_rvalue_reference_t<T>`, with reference collapsing. -/
def add_rvalue_reference_t : Ty → Ty
  | Ty.void c v => Ty.void c v
  | Ty.val t => Ty.rref t
  | Ty.lref t => Ty.lref t
  | Ty.rref t => Ty.rref t

/-! ## Expressions -/

/-- Value category, as far as reference binding and deduction see it. -/
inductive Cat where
  | lvalue
  | rvalue
  deriving DecidableEq

/-- The type and value category of a (non-void) expression. -/
structure Expr where
  ty : CvObj
  cat : Cat
  deriving DecidableEq

/-- The type of a prvalue: a prvalue of non-class type has its cv-qualification dropped. -/
def CvObj.prvalue_type (t : CvObj) : CvObj :=
  if t.base.is_class then t else ⟨t.base, false, false⟩

/-- The expression `g()` for a function `g` declared to return `T` (likewise a cast to `T`):
an lvalue for `T&`, an rvalue for `T&&` and for an object type; `none` for `void`, whose call
is no operand. -/
def call_expr : Ty → Option Expr
  | Ty.void _ _ => none
  | Ty.val t => some ⟨t.prvalue_type, Cat.rvalue⟩
  | Ty.lref t => some ⟨t, Cat.lvalue⟩
  | Ty.rref t => some ⟨t, Cat.rvalue⟩

/-- The type `decltype(g())` for a function `g` declared to return `T`. -/
def call_type : Ty → Ty
  | Ty.void _ _ => Ty.void false false
  | Ty.val t => Ty.val t.prvalue_type
  | T => T

/-- The expression `std::declval<T>()`: a call to a function returning
`add_rvalue_reference_t<T>`. -/
def declval (T : Ty) : Option Expr := call_expr (add_rvalue_reference_t T)

/-- Template argument deduced for `T` from an argument `e` bound to a forwarding reference
`T&&`: `U&` for an lvalue of type `U`, `U` for an rvalue. -/
def deduce (e : Expr) : Ty :=
  match e.cat with
  | Cat.lvalue => Ty.lref e.ty
  | Cat.rvalue => Ty.val e.ty

/-- The macro `VD_FWD(x)`, that is `static_cast<decltype(x)&&>(x)`, for a parameter declared
`T&& x`: `decltype(x)` is `T&&` collapsed, and so is `decltype(x)&&`. -/
def VD_FWD (T : Ty) : Option Expr :=
  call_expr (add_rvalue_reference_t (add_rvalue_reference_t T))

/-! ## The placeholder -/

/-- The class `vd::Void`: no data members, one value. -/
structure Void where
  deriving DecidableEq

/-- The values of `std::strong_ordering`. -/
inductive strong_ordering where
  | less
  | equal
  | greater
  deriving DecidableEq

/-- The comparison `o < 0` of a `std::strong_ordering`. -/
def strong_ordering.lt0 : strong_ordering → Bool
  | strong_ordering.less => true
  | _ => false

/-- The comparison `o <= 0` of a `std::strong_ordering`. -/
def strong_ordering.le0 : strong_ordering → Bool
  | strong_ordering.greater => false
  | _ => true

/-- The comparison `o > 0` of a `std::strong_ordering`. -/
def strong_ordering.gt0 : strong_ordering → Bool
  | strong_ordering.greater => true
  | _ => false

/-- The comparison `o >= 0` of a `std::strong_ordering`. -/
def strong_ordering.ge0 : strong_ordering → Bool
  | strong_ordering.less => false
  | _ => true

/-- The friend `operator==(Void, Void)`, defined in both branches. -/
def Void.eq (_ _ : Void) : Bool := true

/-- The friend `operator<=>(Void, Void)` of the three-way branch. -/
def Void.cmp (_ _ : Void) : strong_ordering := strong_ordering.equal

/-- The friend `operator!=(Void, Void)` of the hand-written branch. -/
def Void.ne_hand (_ _ : Void) : Bool := false

/-- The friend `operator<(Void, Void)` of the hand-written branch. -/
def Void.lt_hand (_ _ : Void) : Bool := false

/-- The friend `operator<=(Void, Void)` of the hand-written branch. -/
def Void.le_hand (_ _ : Void) : Bool := true

/-- The friend `operator>(Void, Void)` of the hand-written branch. -/
def Void.gt_hand (_ _ : Void) : Bool := false

/-- The friend `operator>=(Void, Void)` of the hand-written branch. -/
def Void.ge_hand (_ _ : Void) : Bool := true

/-- The expression `a != b` in the three-way branch: rewritten to `!(a == b)`. -/
def Void.ne_3way (a b : Void) : Bool := !(Void.eq a b)

/-- The expression `a < b` in the three-way branch: rewritten to `(a <=> b) < 0`. -/
def Void.lt_3way (a b : Void) : Bool := (Void.cmp a b).lt0

/-- The expression `a <= b` in the three-way branch: rewritten to `(a <=> b) <= 0`. -/
def Void.le_3way (a b : Void) : Bool := (Void.cmp a b).le0

/-- The expression `a > b` in the three-way branch: rewritten to `(a <=> b) > 0`. -/
def Void.gt_3way (a b : Void) : Bool := (Void.cmp a b).gt0

/-- The expression `a >= b` in the three-way branch: rewritten to `(a <=> b) >= 0`. -/
def Void.ge_3way (a b : Void) : Bool := (Void.cmp a b).ge0

/-- The expression `a != b` on placeholders. -/
def Void.ne (cfg : Config) (a b : Void) : Bool :=
  if cfg.cpp_lib_three_way_comparison then Void.ne_3way a b else Void.ne_hand a b

/-- The expression `a < b` on placeholders. -/
def Void.lt (cfg : Config) (a b : Void) : Bool :=
  if cfg.cpp_lib_three_way_comparison then Void.lt_3way a b else Void.lt_hand a b

/-- The expression `a <= b` on placeholders. -/
def Void.le (cfg : Config) (a b : Void) : Bool :=
  if cfg.cpp_lib_three_way_comparison then Void.le_3way a b else Void.le_hand a b

/-- The expression `a > b` on placeholders. -/
def Void.gt (cfg : Config) (a b : Void) : Bool :=
  if cfg.cpp_lib_three_way_comparison then Void.gt_3way a b else Void.gt_hand a b

/-- The expression `a >= b` on placeholders. -/
def Void.ge (cfg : Config) (a b : Void) : Bool :=
  if cfg.cpp_lib_three_way_comparison then Void.ge_3way a b else Void.ge_hand a b

/-! ## wrap_void and unwrap_void -/

namespace detail

/-- The alias `detail::if_c<B, T, U>`: `meta<true>::if_c<T, U>` is `T`,
`meta<false>::if_c<T, U>` is `U`. -/
def if_c (B : Bool) (T U : Ty) : Ty :=
  match B with
  | true => T
  | false => U

end detail

/-- The alias `wrap_void<T>`: `if_c<std::is_void_v<T>, Void, T>`. -/
def wrap_void (T : Ty) : Ty := detail.if_c (is_void_v T) Ty.Void T

/-- The alias `unwrap_void<T>`: `if_c<std::is_same_v<X, Void>, void, T>`, with `X` being
`std::remove_cvref_t<T>` where the library has it and
`std::remove_cv_t<std::remove_reference_t<T>>` otherwise. -/
def unwrap_void (cfg : Config) (T : Ty) : Ty :=
  detail.if_c
    (is_same_v
      (if cfg.cpp_lib_remove_cvref then remove_cvref_t T
       else remove_cv_t (remove_reference_t T))
      Ty.Void)
    Ty.real_void T

/-! ## Calls -/

/-- Run-time values. -/
inductive Val where
  /-- What a call of a function returning `void` yields: no value. -/
  | novalue
  /-- A placeholder. -/
  | placeholder (v : Void)
  /-- An `int`. -/
  | int (n : Int)
  deriving DecidableEq

/-- The function a call selects: its declared return type and its body, which maps the
argument values and the state before the call to the returned value and the state after. -/
structure Overload (σ : Type) where
  ret : Ty
  body : List Val → σ → Val × σ

/-- The program around the header: for a callee expression and argument expressions, the
function that `INVOKE(f, args...)` selects, `none` when that call is ill-formed. -/
abbrev Program (σ : Type) := Expr → List Expr → Option (Overload σ)

/-- Operand list from a list of types; `none` when some type gives no operand. -/
def operands (g : Ty → Option Expr) : List Ty → Option (List Expr)
  | [] => some []
  | T :: Ts =>
    match g T, operands g Ts with
    | some e, some es => some (e :: es)
    | _, _ => none

/-- The call `INVOKE(std::declval<F>(), std::declval<Args>()...)`. -/
def INVOKE {σ : Type} (P : Program σ) (F : Ty) (Args : List Ty) : Option (Overload σ) :=
  match declval F, operands declval Args with
  | some f, some as => P f as
  | _, _ => none

/-- The trait `std::invoke_result_t<F, Args...>`: the type of the expression
`INVOKE(std::declval<F>(), std::declval<Args>()...)`, `none` when it is ill-formed. -/
def invoke_result_t {σ : Type} (P : Program σ) (F : Ty) (Args : List Ty) : Option Ty :=
  (INVOKE P F Args).map (fun ov => call_type ov.ret)

/-- The trait `std::is_invocable_v<F, Args...>`. -/
def is_invocable_v {σ : Type} (P : Program σ) (F : Ty) (Args : List Ty) : Bool :=
  (invoke_result_t P F Args).isSome

/-- The concept `std::invocable<F, Args...>`: `std::invoke` on the forwarded operands is a
valid expression. -/
def std_invocable {σ : Type} (P : Program σ) (F : Ty) (Args : List Ty) : Bool :=
  (INVOKE P F Args).isSome

/-- The call `std::invoke(f, args...)` at run time: the selected body on the argument values.
A call `f()` of a callable object with no arguments is the same call. -/
def std_invoke {σ : Type} (P : Program σ) (f : Expr) (as : List Expr) (vals : List Val)
    (s : σ) : Option (Val × σ) :=
  (P f as).map (fun ov => ov.body vals s)

namespace detail

/-- Default template argument `R = std::invoke_result_t<F, Args...>` of the first
`operator()`; the overload is viable when it exists. -/
def invoke_t.primary_R {σ : Type} (P : Program σ) (F : Ty) (Args : List Ty) : Option Ty :=
  invoke_result_t P F Args

/-- Body of the first `operator()(F&& f, Args&&... args)`. -/
def invoke_t.primary {σ : Type} (P : Program σ) (F : Ty) (Args : List Ty) (R : Ty)
    (vals : List Val) (s : σ) : Option (Val × σ) :=
  match VD_FWD F, operands VD_FWD Args with
  | some f, some as =>
    if !is_void_v R then
      std_invoke P f as vals s
    else
      (std_invoke P f as vals s).map (fun r => (Val.placeholder Void.mk, r.2))
  | _, _ => none

/-- Template head of the second `operator()(F&& f, Arg&&)`: exactly one argument, the default
template argument `R = std::invoke_result_t<F>` exists, and the constraint holds (a
requires-clause under `__cpp_concepts`, `std::enable_if_t` otherwise). -/
def invoke_t.fallback_R {σ : Type} (cfg : Config) (P : Program σ) (F : Ty)
    (Args : List Ty) : Option Ty :=
  match Args with
  | [Arg] =>
    match invoke_result_t P F [] with
    | some R =>
      if (if cfg.cpp_concepts then
            same_as (decay_t Arg) Ty.Void && !std_invocable P F [Arg]
          else
            is_same_v (decay_t Arg) Ty.Void && !is_invocable_v P F [Arg])
      then some R else none
    | none => none
  | _ => none

/-- Body of the second `operator()(F&& f, Arg&&)`: the argument is unnamed and unused. -/
def invoke_t.fallback {σ : Type} (P : Program σ) (F : Ty) (R : Ty) (s : σ) :
    Option (Val × σ) :=
  match VD_FWD F with
  | some f =>
    if !is_void_v R then
      std_invoke P f [] [] s
    else
      (std_invoke P f [] [] s).map (fun r => (Val.placeholder Void.mk, r.2))
  | none => none

/-- The `operator()` that overload resolution selects, with its `R`. -/
inductive invoke_t.Selected where
  | primary (R : Ty)
  | fallback (R : Ty)
  deriving DecidableEq

/-- The `R` of the selected `operator()`. -/
def invoke_t.Selected.R : invoke_t.Selected → Ty
  | invoke_t.Selected.primary R => R
  | invoke_t.Selected.fallback R => R

/-- Overload resolution between the two `operator()` templates.  Were both viable, the second
would be chosen: a template without a trailing parameter pack is more specialised. -/
def invoke_t.select {σ : Type} (cfg : Config) (P : Program σ) (F : Ty) (Args : List Ty) :
    Option invoke_t.Selected :=
  match invoke_t.primary_R P F Args, invoke_t.fallback_R cfg P F Args with
  | _, some R => some (invoke_t.Selected.fallback R)
  | some R, none => some (invoke_t.Selected.primary R)
  | none, none => none

/-- The call `invoke_t{}.operator()<F, Args...>(f, args...)` at run time. -/
def invoke_t.call {σ : Type} (cfg : Config) (P : Program σ) (F : Ty) (Args : List Ty)
    (vals : List Val) (s : σ) : Option (Val × σ) :=
  match invoke_t.select cfg P F Args with
  | some (invoke_t.Selected.primary R) => invoke_t.primary P F Args R vals s
  | some (invoke_t.Selected.fallback R) => invoke_t.fallback P F R s
  | none => none

/-- Declared return type `wrap_void<R>` of the selected `operator()`. -/
def invoke_t.return_type {σ : Type} (cfg : Config) (P : Program σ) (F : Ty)
    (Args : List Ty) : Option Ty :=
  (invoke_t.select cfg P F Args).map (fun sel => wrap_void sel.R)

end detail

/-- The call `vd::invoke(f, args...)` at run time, on a callee expression and arguments given
as expression and value: `F` and `Args` are deduced from the forwarding references.  The
result is `none` when the call is ill-formed. -/
def invoke {σ : Type} (cfg : Config) (P : Program σ) (f : Expr) (args : List (Expr × Val))
    (s : σ) : Option (Val × σ) :=
  detail.invoke_t.call cfg P (deduce f) (args.map (fun a => deduce a.1))
    (args.map (fun a => a.2)) s

/-- The type `decltype(vd::invoke(f, args...))`, `none` when the call is ill-formed. -/
def invoke_type {σ : Type} (cfg : Config) (P : Program σ) (f : Expr) (args : List Expr) :
    Option Ty :=
  (detail.invoke_t.return_type cfg P (deduce f) (args.map deduce)).map call_type

/-- The alias `void_result_t<F, Args...>`:
`unwrap_void<decltype(vd::invoke(std::declval<F>(), std::declval<Args>()...))>`. -/
def void_result_t {σ : Type} (cfg : Config) (P : Program σ) (F : Ty) (Args : List Ty) :
    Option Ty :=
  match declval F, operands declval Args with
  | some f, some as => (invoke_type cfg P f as).map (unwrap_void cfg)
  | _, _ => none

/-- Whether a function call can yield the object type as a temporary. -/
def Obj.returnable : Obj → Bool
  | Obj.cls_of _ _ r => r
  | _ => true

/-- A template type argument: a type of the model, or an array type or a function type, by
index. -/
inductive TypeArg where
  | ty (T : Ty)
  | array_type (n : Nat)
  | function_type (n : Nat)
  deriving DecidableEq

/-- Whether a call of a function returning the type is well-formed: no function returns an
array type or a function type, and a call returning an object type by value must be able to
yield it as a temporary.  A reference type and `void` can always be returned. -/
def TypeArg.returnable : TypeArg → Bool
  | TypeArg.ty (Ty.val t) => t.base.returnable
  | TypeArg.ty _ => true
  | _ => false

/-- The expression `f()` for `f` of type `detail::Producer<T>`, that is `T(*)()`: `none` when
no call of a function returning `T` is well-formed, and for `void`, whose call is no
operand. -/
def detail.Producer.call (T : TypeArg) : Option Expr :=
  match T with
  | TypeArg.ty U => if T.returnable then call_expr U else none
  | _ => none

/-- The expressions `args()...` for `args` of types `detail::Producer<Args>...`. -/
def detail.Producer.calls : List TypeArg → Option (List Expr)
  | [] => some []
  | T :: Ts =>
    match detail.Producer.call T, detail.Producer.calls Ts with
    | some e, some es => some (e :: es)
    | _, _ => none

/-- The concept `invocable<F, Args...>`, declared under `__cpp_concepts` only:
`requires(Producer<F> f, Producer<Args>... args) { vd::invoke(f(), args()...); }`. -/
def invocable {σ : Type} (cfg : Config) (P : Program σ) (F : TypeArg)
    (Args : List TypeArg) : Option Bool :=
  if cfg.cpp_concepts then
    some
      (match detail.Producer.call F, detail.Producer.calls Args with
       | some f, some as => (invoke_type cfg P f as).isSome
       | _, _ => false)
  else none

/-! ## The program of `test/test_void.cxx` -/

/-- The type `int`. -/
def Ty.int : CvObj := ⟨Obj.scalar 0, false, false⟩

/-- The closure type of `get` in the test. -/
def test.get_t : CvObj := ⟨Obj.cls 0, false, false⟩

/-- The closure type of `incr` in the test. -/
def test.incr_t : CvObj := ⟨Obj.cls 1, false, false⟩

/-- The test's callables over the state `i`: `get = [&]{ return i; }` and
`incr = [&](int n = 1){ i += n; }`. -/
def test.program : Program Int := fun f as =>
  match f.ty.base, as with
  | Obj.cls 0, [] => some ⟨Ty.val Ty.int, fun _ i => (Val.int i, i)⟩
  | Obj.cls 1, [] => some ⟨Ty.real_void, fun _ i => (Val.novalue, i + 1)⟩
  | Obj.cls 1, [a] =>
    if a.ty.base = Obj.scalar 0 then
      some ⟨Ty.real_void, fun vals i =>
        match vals with
        | [Val.int n] => (Val.novalue, i + n)
        | _ => (Val.novalue, i)⟩
    else none
  | _, _ => none

/-- The expression `get`: an lvalue of its closure type. -/
def test.get : Expr := ⟨test.get_t, Cat.lvalue⟩

/-- The expression `incr`: an lvalue of its closure type. -/
def test.incr : Expr := ⟨test.incr_t, Cat.lvalue⟩

/-- The argument `vd::Void{}`: an rvalue placeholder. -/
def test.void_arg : Expr × Val := (⟨⟨Obj.Void, false, false⟩, Cat.rvalue⟩, Val.placeholder Void.mk)

/-- The argument `2`: an rvalue `int`. -/
def test.two_arg : Expr × Val := (⟨Ty.int, Cat.rvalue⟩, Val.int 2)

/-- The five calls of `TEST_CASE("invocation")` in order from `i = 2`: the five results and
the final `i`. -/
def test.invocation (cfg : Config) : Option (List Val × Int) :=
  match invoke cfg test.program test.get [] 2 with
  | none => none
  | some (r1, i1) =>
  match invoke cfg test.program test.incr [test.void_arg] i1 with
  | none => none
  | some (r2, i2) =>
  match invoke cfg test.program test.get [test.void_arg] i2 with
  | none => none
  | some (r3, i3) =>
  match invoke cfg test.program test.incr [test.two_arg] i3 with
  | none => none
  | some (r4, i4) =>
  match invoke cfg test.program test.get [] i4 with
  | none => none
  | some (r5, i5) => some ([r1, r2, r3, r4, r5], i5)

/-! ## Further example programs -/

/-- The closure type of a callable with two call operators, `int operator()(vd::Void)` and
`int operator()()`. -/
def example_both.f_t : CvObj := ⟨Obj.cls 2, false, false⟩

/-- A callable that accepts a placeholder and also no argument, over a counter: called with a
placeholder it adds 1 and returns 1, called with nothing it adds 10 and returns 0. -/
def example_both.program : Program Int := fun f as =>
  match f.ty.base, as with
  | Obj.cls 2, [] => some ⟨Ty.val Ty.int, fun _ i => (Val.int 0, i + 10)⟩
  | Obj.cls 2, [a] =>
    if a.ty.base = Obj.Void then some ⟨Ty.val Ty.int, fun _ i => (Val.int 1, i + 1)⟩
    else none
  | _, _ => none

/-- The type `void(*)(int&&)`, a scalar type. -/
def example_rvalue.F : Ty := Ty.val ⟨Obj.scalar 1, false, false⟩

/-- The type `const int`. -/
def example_rvalue.const_int : Ty := Ty.val ⟨Obj.scalar 0, true, false⟩

/-- A program whose only callable is a function pointer `void(*)(int&&)`: the parameter binds
to an rvalue of type `int` and to nothing else (not to an lvalue, not to a const rvalue). -/
def example_rvalue.program : Program Unit := fun f as =>
  match f.ty.base, as with
  | Obj.scalar 1, [a] =>
    if a = ⟨Ty.int, Cat.rvalue⟩ then some ⟨Ty.real_void, fun _ s => (Val.novalue, s)⟩
    else none
  | _, _ => none

/-! ## The constructors of the placeholder -/

/-- Whether a class type is `vd::Void` or has it as a base class, accessible or not. -/
def Obj.has_base_Void : Obj → Bool
  | Obj.Void => true
  | Obj.derived _ => true
  | Obj.cls_of _ Void_base.accessible _ => true
  | Obj.cls_of _ Void_base.hidden _ => true
  | _ => false

/-- Whether a reference to `Void` binds to an object of the type: it is `vd::Void` or has it
as a public, unambiguous base class. -/
def Obj.binds_to_Void : Obj → Bool
  | Obj.Void => true
  | Obj.derived _ => true
  | Obj.cls_of _ Void_base.accessible _ => true
  | _ => false

/-- The trait `std::is_base_of_v<Void, D>`: `D` is a class type, cv-qualification ignored, that
is `vd::Void` or derived from it; false for `void` and for a reference type. -/
def is_base_of_v_Void : Ty → Bool
  | Ty.val t => t.base.has_base_Void
  | _ => false

/-- The constructors that `struct Void` declares. -/
inductive Void.Ctor where
  /-- The constructor `Void() = default`. -/
  | default_ctor
  /-- The constructor `Void(Void const&) = default`. -/
  | copy_ctor
  /-- The constructor `Void(Void&&) = default`. -/
  | move_ctor
  /-- The template `constexpr explicit Void(Arg&&, Args&&...) { }`. -/
  | discard_ctor
  deriving DecidableEq

/-- Constraint of the constructor template on its first template argument,
`!std::is_base_of_v<Void, std::remove_reference_t<Arg>>`: a requires-clause under
`__cpp_concepts`, `std::enable_if_t` otherwise. -/
def Void.discard_constraint (cfg : Config) (Arg : Ty) : Bool :=
  if cfg.cpp_concepts then !is_base_of_v_Void (remove_reference_t Arg)
  else !is_base_of_v_Void (remove_reference_t Arg)

/-- Viability of a constructor for a list of argument expressions.  A `Void const&` binds to
a non-volatile object that is a `Void` or of a class publicly and unambiguously derived from
it, a `Void&&` to such an rvalue that is also non-const; with `Void` as a private, protected
or ambiguous base the binding is ill-formed, which counts here as not viable.  `Arg&&` and
`Args&&...` are forwarding references and bind to anything.  Conversion functions to `Void`
are outside the model. -/
def Void.Ctor.viable (cfg : Config) : Void.Ctor → List Expr → Bool
  | Void.Ctor.default_ctor, [] => true
  | Void.Ctor.copy_ctor, [e] => e.ty.base.binds_to_Void && !e.ty.v
  | Void.Ctor.move_ctor, [e] =>
    e.ty.base.binds_to_Void && !e.ty.c && !e.ty.v && decide (e.cat = Cat.rvalue)
  | Void.Ctor.discard_ctor, e :: _ => Void.discard_constraint cfg (deduce e)
  | _, _ => false

/-- Overload resolution for the initialisation `Void(args...)`.  The template is tried first:
its constraint makes it viable only where the copy and move constructors are not.  Of those
two the move constructor, where viable, is the better match. -/
def Void.select_ctor (cfg : Config) (as : List Expr) : Option Void.Ctor :=
  if Void.Ctor.viable cfg Void.Ctor.discard_ctor as then some Void.Ctor.discard_ctor
  else if Void.Ctor.viable cfg Void.Ctor.move_ctor as then some Void.Ctor.move_ctor
  else if Void.Ctor.viable cfg Void.Ctor.copy_ctor as then some Void.Ctor.copy_ctor
  else if Void.Ctor.viable cfg Void.Ctor.default_ctor as then some Void.Ctor.default_ctor
  else none

/-- A program whose only callable, of closure type `cls 3`, takes no argument and returns a
`vd::Void&`. -/
def example_ref.program : Program Unit := fun f as =>
  match f.ty.base, as with
  | Obj.cls 3, [] =>
    some ⟨Ty.lref ⟨Obj.Void, false, false⟩, fun _ s => (Val.placeholder Void.mk, s)⟩
  | _, _ => none

/-- The closure type of the callable of `example_ref.program`. -/
def example_ref.F : Ty := Ty.val ⟨Obj.cls 3, false, false⟩

/-! ## Facts about the traits and about forwarding -/

theorem VD_FWD_deduce (e : Expr) : VD_FWD (deduce e) = some e := by
  rcases e with ⟨t, c⟩
  cases c <;> rfl

theorem declval_deduce (e : Expr) : declval (deduce e) = some e := by
  rcases e with ⟨t, c⟩
  cases c <;> rfl

theorem VD_FWD_eq_declval (T : Ty) : VD_FWD T = declval T := by
  cases T <;> rfl

theorem operands_deduce (g : Ty → Option Expr) (hg : ∀ e, g (deduce e) = some e)
    (es : List Expr) : operands g (es.map deduce) = some es := by
  induction es with
  | nil => rfl
  | cons e es ih => simp [operands, hg, ih]

theorem INVOKE_deduce {σ : Type} (P : Program σ) (f : Expr) (as : List Expr) :
    INVOKE P (deduce f) (as.map deduce) = P f as := by
  simp [INVOKE, declval_deduce, operands_deduce declval declval_deduce]

theorem is_void_v_call_type (T : Ty) : is_void_v (call_type T) = is_void_v T := by
  cases T <;> rfl

theorem prvalue_type_idem (t : CvObj) : t.prvalue_type.prvalue_type = t.prvalue_type := by
  rcases t with ⟨b, c, v⟩
  cases b <;> rfl

theorem call_type_idem (T : Ty) : call_type (call_type T) = call_type T := by
  cases T <;> simp [call_type, prvalue_type_idem]

theorem call_type_wrap_void (T : Ty) :
    call_type (wrap_void (call_type T)) = wrap_void (call_type T) := by
  cases T <;> simp [call_type, wrap_void, detail.if_c, is_void_v, prvalue_type_idem]
  rfl

theorem is_invocable_v_eq {σ : Type} (P : Program σ) (F : Ty) (Args : List Ty) :
    is_invocable_v P F Args = (INVOKE P F Args).isSome := by
  simp [is_invocable_v, invoke_result_t]

theorem same_as_eq (T U : Ty) : same_as T U = is_same_v T U := by
  unfold same_as is_same_v
  by_cases h : T = U <;> simp [h, eq_comm]

/-- The constraint of the second overload does not depend on the concepts branch. -/
theorem fallback_R_eq {σ : Type} (cfg : Config) (P : Program σ) (F : Ty) (Args : List Ty)
    (R : Ty) :
    detail.invoke_t.fallback_R cfg P F Args = some R ↔
      ∃ A, Args = [A] ∧ decay_t A = Ty.Void ∧ is_invocable_v P F [A] = false ∧
        invoke_result_t P F [] = some R := by
  unfold detail.invoke_t.fallback_R
  rcases Args with _ | ⟨A, _ | ⟨B, Bs⟩⟩
  · simp
  · cases h0 : invoke_result_t P F [] with
    | none => simp
    | some R0 =>
      simp only [same_as_eq, std_invocable, ← is_invocable_v_eq, is_same_v, ite_self]
      by_cases hd : decay_t A = Ty.Void <;> cases hi : is_invocable_v P F [A] <;>
        simp [hd, hi]
  · simp

theorem fallback_R_none_of_invocable {σ : Type} (cfg : Config) (P : Program σ) (F : Ty)
    (Args : List Ty) (h : is_invocable_v P F Args = true) :
    detail.invoke_t.fallback_R cfg P F Args = none := by
  cases hf : detail.invoke_t.fallback_R cfg P F Args with
  | none => rfl
  | some R =>
    obtain ⟨A, rfl, _, hA, _⟩ := (fallback_R_eq cfg P F Args R).1 hf
    rw [h] at hA
    cases hA

theorem select_primary {σ : Type} (cfg : Config) (P : Program σ) (F : Ty) (Args : List Ty)
    (R : Ty) (h : invoke_result_t P F Args = some R) :
    detail.invoke_t.select cfg P F Args = some (detail.invoke_t.Selected.primary R) := by
  have hi : is_invocable_v P F Args = true := by simp [is_invocable_v, h]
  simp [detail.invoke_t.select, detail.invoke_t.primary_R, h,
    fallback_R_none_of_invocable cfg P F Args hi]

theorem select_fallback {σ : Type} (cfg : Config) (P : Program σ) (F : Ty) (A : Ty)
    (R : Ty) (hA : decay_t A = Ty.Void) (hno : is_invocable_v P F [A] = false)
    (h0 : invoke_result_t P F [] = some R) :
    detail.invoke_t.select cfg P F [A] = some (detail.invoke_t.Selected.fallback R) := by
  have hf : detail.invoke_t.fallback_R cfg P F [A] = some R :=
    (fallback_R_eq cfg P F [A] R).2 ⟨A, rfl, hA, hno, h0⟩
  simp [detail.invoke_t.select, hf]

theorem select_cases {σ : Type} (cfg : Config) (P : Program σ) (F : Ty) (Args : List Ty)
    (sel : detail.invoke_t.Selected) (h : detail.invoke_t.select cfg P F Args = some sel) :
    (invoke_result_t P F Args = some sel.R ∧ sel = detail.invoke_t.Selected.primary sel.R) ∨
    ((∃ A, Args = [A] ∧ decay_t A = Ty.Void) ∧ is_invocable_v P F Args = false ∧
      invoke_result_t P F [] = some sel.R ∧
      sel = detail.invoke_t.Selected.fallback sel.R) := by
  unfold detail.invoke_t.select at h
  cases hf : detail.invoke_t.fallback_R cfg P F Args with
  | some R =>
    obtain ⟨A, rfl, hA, hno, h0⟩ := (fallback_R_eq cfg P F Args R).1 hf
    simp only [hf] at h
    cases h
    exact Or.inr ⟨⟨A, rfl, hA⟩, hno, h0, rfl⟩
  | none =>
    cases hp : detail.invoke_t.primary_R P F Args with
    | none => simp [hf, hp] at h
    | some R =>
      simp only [hf, hp] at h
      cases h
      exact Or.inl ⟨hp, rfl⟩

/-! ## What a call of vd::invoke does -/

theorem map_deduce_fst (args : List (Expr × Val)) :
    args.map (fun a => deduce a.1) = (args.map (fun a => a.1)).map deduce := by
  simp [List.map_map, Function.comp_def]

/-- Under the first overload the selected body runs once on the argument values. -/
theorem invoke_eq_of_primary {σ : Type} (cfg : Config) (P : Program σ) (f : Expr)
    (args : List (Expr × Val)) (s : σ) (ov : Overload σ)
    (h : P f (args.map (fun a => a.1)) = some ov) :
    invoke cfg P f args s =
      some (if is_void_v ov.ret then
              (Val.placeholder Void.mk, (ov.body (args.map (fun a => a.2)) s).2)
            else ov.body (args.map (fun a => a.2)) s) := by
  have hR : invoke_result_t P (deduce f) (args.map (fun a => deduce a.1)) =
      some (call_type ov.ret) := by
    have hI : INVOKE P (deduce f) (args.map (fun a => deduce a.1)) = some ov := by
      rw [map_deduce_fst, INVOKE_deduce]
      exact h
    simp [invoke_result_t, hI]
  unfold invoke detail.invoke_t.call
  rw [select_primary cfg P _ _ _ hR]
  simp only [detail.invoke_t.primary, VD_FWD_deduce, map_deduce_fst,
    operands_deduce VD_FWD VD_FWD_deduce, std_invoke, h, is_void_v_call_type, Option.map_some']
  cases is_void_v ov.ret <;> simp

/-- Under the second overload the zero-argument body runs once. -/
theorem invoke_eq_of_fallback {σ : Type} (cfg : Config) (P : Program σ) (f v : Expr)
    (val : Val) (s : σ) (ov : Overload σ) (hv : decay_t (deduce v) = Ty.Void)
    (hno : P f [v] = none) (h0 : P f [] = some ov) :
    invoke cfg P f [(v, val)] s =
      some (if is_void_v ov.ret then (Val.placeholder Void.mk, (ov.body [] s).2)
            else ov.body [] s) := by
  have hR : invoke_result_t P (deduce f) [] = some (call_type ov.ret) := by
    have := INVOKE_deduce P f []
    simp only [List.map_nil] at this
    simp [invoke_result_t, this, h0]
  have hI : is_invocable_v P (deduce f) [deduce v] = false := by
    have := INVOKE_deduce P f [v]
    simp only [List.map_cons, List.map_nil] at this
    simp [is_invocable_v_eq, this, hno]
  unfold invoke detail.invoke_t.call
  simp only [List.map_cons, List.map_nil]
  rw [select_fallback cfg P _ _ _ hv hI hR]
  simp only [detail.invoke_t.fallback, VD_FWD_deduce, std_invoke, h0, is_void_v_call_type,
    Option.map_some']
  cases is_void_v ov.ret <;> simp

/-- The argument of the fallback shape: its decayed type is the placeholder exactly when it is
a placeholder expression, whatever its qualification and value category. -/
theorem decay_deduce_eq_Void (v : Expr) : decay_t (deduce v) = Ty.Void ↔ v.ty.base = Obj.Void := by
  rcases v with ⟨⟨b, c, w⟩, k⟩
  cases k <;> simp [deduce, decay_t, remove_reference_t, remove_cv_t, Ty.Void]

theorem declval_call_type (T : Ty) : declval (call_type T) = call_expr T := by
  cases T <;> simp [call_type, declval, add_rvalue_reference_t, call_expr, prvalue_type_idem]

theorem operands_congr (g h : Ty → Option Expr) (k : Ty → Ty) (hk : ∀ T, g (k T) = h T)
    (Ts : List Ty) : operands g (Ts.map k) = operands h Ts := by
  induction Ts with
  | nil => rfl
  | cons T Ts ih => simp [operands, hk, ih]

theorem INVOKE_of_operands {σ : Type} (P : Program σ) (F : Ty) (Args : List Ty) (f : Expr)
    (as : List Expr) (hf : declval F = some f) (has : operands declval Args = some as) :
    INVOKE P F Args = P f as := by
  simp [INVOKE, hf, has]

theorem INVOKE_isSome_operands {σ : Type} (P : Program σ) (F : Ty) (Args : List Ty)
    (h : (INVOKE P F Args).isSome = true) :
    ∃ f as, declval F = some f ∧ operands declval Args = some as := by
  unfold INVOKE at h
  cases hf : declval F with
  | none => simp [hf] at h
  | some f =>
    cases has : operands declval Args with
    | none => simp [hf, has] at h
    | some as => exact ⟨f, as, rfl, rfl⟩

theorem invoke_result_t_call_type {σ : Type} (P : Program σ) (F : Ty) (Args : List Ty)
    (R : Ty) (h : invoke_result_t P F Args = some R) : call_type R = R := by
  unfold invoke_result_t at h
  cases hI : INVOKE P F Args with
  | none => simp [hI] at h
  | some ov =>
    simp only [hI, Option.map_some', Option.some.injEq] at h
    rw [← h, call_type_idem]

/-- The decayed type of an operand made from a type is the decayed type of that type. -/
theorem decay_deduce_of_call_expr (A : Ty) (a : Expr) (h : call_expr A = some a) :
    decay_t (deduce a) = decay_t A := by
  rcases A with ⟨c, v⟩ | ⟨b, c, v⟩ | t | t
  · cases h
  · simp only [call_expr, Option.some.injEq] at h
    subst h
    cases b <;> rfl
  · simp only [call_expr, Option.some.injEq] at h
    subst h
    rfl
  · simp only [call_expr, Option.some.injEq] at h
    subst h
    rfl

theorem decay_deduce_of_declval (A : Ty) (a : Expr) (h : declval A = some a) :
    decay_t (deduce a) = decay_t A := by
  rcases A with ⟨c, v⟩ | t | t | t
  · cases h
  all_goals
    simp only [declval, add_rvalue_reference_t, call_expr, Option.some.injEq] at h
    subst h
    rfl

theorem declval_isSome_of_decay (A : Ty) (h : decay_t A = Ty.Void) :
    ∃ a, declval A = some a := by
  rcases A with ⟨c, v⟩ | t | t | t
  · simp [decay_t, remove_reference_t, remove_cv_t, Ty.Void] at h
  · exact ⟨_, rfl⟩
  · exact ⟨_, rfl⟩
  · exact ⟨_, rfl⟩

/-- Well-formedness of the call: the first overload is viable when the direct call is, the
second adds the one-placeholder shape with a viable zero-argument call. -/
theorem select_isSome_iff {σ : Type} (cfg : Config) (P : Program σ) (F : Ty)
    (Args : List Ty) :
    (detail.invoke_t.select cfg P F Args).isSome = true ↔
      (is_invocable_v P F Args = true ∨
        ∃ A, Args = [A] ∧ decay_t A = Ty.Void ∧ is_invocable_v P F [] = true) := by
  constructor
  · intro h
    obtain ⟨sel, hsel⟩ := Option.isSome_iff_exists.1 h
    rcases select_cases cfg P F Args sel hsel with ⟨hR, _⟩ | ⟨⟨A, hA, hd⟩, _, hR, _⟩
    · left
      simp [is_invocable_v, hR]
    · right
      exact ⟨A, hA, hd, by simp [is_invocable_v, hR]⟩
  · rintro (h | ⟨A, rfl, hd, h0⟩)
    · obtain ⟨R, hR⟩ := Option.isSome_iff_exists.1 h
      rw [select_primary cfg P F Args R hR]
      rfl
    · cases hi : is_invocable_v P F [A] with
      | true =>
        obtain ⟨R, hR⟩ := Option.isSome_iff_exists.1 hi
        rw [select_primary cfg P F [A] R hR]
        rfl
      | false =>
        obtain ⟨R, hR⟩ := Option.isSome_iff_exists.1 h0
        rw [select_fallback cfg P F A R hd hi hR]
        rfl

/-- Overload resolution in closed form. -/
theorem select_eq {σ : Type} (cfg : Config) (P : Program σ) (F : Ty) (Args : List Ty) :
    detail.invoke_t.select cfg P F Args =
      match Args with
      | [A] =>
        if decay_t A = Ty.Void ∧ is_invocable_v P F [A] = false then
          (invoke_result_t P F []).map detail.invoke_t.Selected.fallback
        else (invoke_result_t P F [A]).map detail.invoke_t.Selected.primary
      | Ts => (invoke_result_t P F Ts).map detail.invoke_t.Selected.primary := by
  rcases Args with _ | ⟨A, _ | ⟨B, Bs⟩⟩
  · simp only [detail.invoke_t.select, detail.invoke_t.fallback_R, detail.invoke_t.primary_R]
    cases invoke_result_t P F [] <;> rfl
  · by_cases hc : decay_t A = Ty.Void ∧ is_invocable_v P F [A] = false
    · simp only [hc, and_self, if_true]
      cases h0 : invoke_result_t P F [] with
      | some R => exact select_fallback cfg P F A R hc.1 hc.2 h0
      | none =>
        have hp : invoke_result_t P F [A] = none := by
          have := hc.2
          simpa [is_invocable_v] using this
        simp [detail.invoke_t.select, detail.invoke_t.primary_R, detail.invoke_t.fallback_R,
          h0, hp]
    · simp only [hc, if_false]
      have hf : detail.invoke_t.fallback_R cfg P F [A] = none := by
        cases hfb : detail.invoke_t.fallback_R cfg P F [A] with
        | none => rfl
        | some R =>
          obtain ⟨A1, hA1, hd, hno, _⟩ := (fallback_R_eq cfg P F [A] R).1 hfb
          simp only [List.cons.injEq, and_true] at hA1
          subst hA1
          exact absurd ⟨hd, hno⟩ hc
      simp only [detail.invoke_t.select, detail.invoke_t.primary_R, hf]
      cases invoke_result_t P F [A] <;> rfl
  · simp only [detail.invoke_t.select, detail.invoke_t.fallback_R, detail.invoke_t.primary_R]
    cases invoke_result_t P F (A :: B :: Bs) <;> rfl

/-- Overload resolution sees the template arguments only through the operands they forward:
deducing from `std::declval<F>()` and `std::declval<Args>()...` selects as `F` and `Args`
do. -/
theorem select_deduce {σ : Type} (cfg : Config) (P : Program σ) (F : Ty) (Args : List Ty)
    (f : Expr) (as : List Expr) (hf : declval F = some f)
    (has : operands declval Args = some as) :
    detail.invoke_t.select cfg P (deduce f) (as.map deduce) =
      detail.invoke_t.select cfg P F Args := by
  have hI : ∀ (Ts : List Ty) (es : List Expr), operands declval Ts = some es →
      invoke_result_t P (deduce f) (es.map deduce) = invoke_result_t P F Ts := by
    intro Ts es hes
    simp [invoke_result_t, INVOKE_deduce, INVOKE_of_operands P F Ts f es hf hes]
  have h0 := hI [] [] rfl
  simp only [List.map_nil] at h0
  rw [select_eq, select_eq]
  rcases Args with _ | ⟨A, _ | ⟨B, Bs⟩⟩
  · simp only [operands, Option.some.injEq] at has
    subst has
    simp [h0]
  · cases hA : declval A with
    | none => simp [operands, hA] at has
    | some a =>
      simp only [operands, hA, Option.some.injEq] at has
      subst has
      have h1 := hI [A] [a] (by simp [operands, hA])
      simp only [List.map_cons, List.map_nil] at h1
      simp only [List.map_cons, List.map_nil, is_invocable_v, h0, h1,
        decay_deduce_of_declval A a hA]
  · cases hA : declval A with
    | none => simp [operands, hA] at has
    | some a =>
      cases hB : declval B with
      | none => simp [operands, hA, hB] at has
      | some b =>
        cases hBs : operands declval Bs with
        | none => simp [operands, hA, hB, hBs] at has
        | some bs =>
          have hall : operands declval (A :: B :: Bs) = some (a :: b :: bs) := by
            simp [operands, hA, hB, hBs]
          rw [hall] at has
          simp only [Option.some.injEq] at has
          subst has
          have h2 := hI (A :: B :: Bs) (a :: b :: bs) hall
          simp only [List.map_cons] at h2 ⊢
          rw [h2]

/-- A well-formed call returns, and runs the selected body once. -/
theorem invoke_of_select {σ : Type} (cfg : Config) (P : Program σ) (f : Expr)
    (args : List (Expr × Val)) (s : σ) (sel : detail.invoke_t.Selected)
    (hsel : detail.invoke_t.select cfg P (deduce f) (args.map (fun a => deduce a.1)) =
      some sel) :
    (∃ ov, sel = detail.invoke_t.Selected.primary sel.R ∧
      P f (args.map (fun a => a.1)) = some ov ∧
      invoke cfg P f args s =
        some (if is_void_v ov.ret then
                (Val.placeholder Void.mk, (ov.body (args.map (fun a => a.2)) s).2)
              else ov.body (args.map (fun a => a.2)) s)) ∨
    (∃ ov, sel = detail.invoke_t.Selected.fallback sel.R ∧
      P f (args.map (fun a => a.1)) = none ∧ P f [] = some ov ∧
      invoke cfg P f args s =
        some (if is_void_v ov.ret then (Val.placeholder Void.mk, (ov.body [] s).2)
              else ov.body [] s)) := by
  have hI : INVOKE P (deduce f) (args.map (fun a => deduce a.1)) =
      P f (args.map (fun a => a.1)) := by
    rw [map_deduce_fst, INVOKE_deduce]
  rcases select_cases cfg P _ _ _ hsel with ⟨hR, hp⟩ | ⟨⟨A, hA, hd⟩, hno, hR, hp⟩
  · left
    simp only [invoke_result_t, hI] at hR
    cases hP : P f (args.map (fun a => a.1)) with
    | none => simp [hP] at hR
    | some ov => exact ⟨ov, hp, rfl, invoke_eq_of_primary cfg P f args s ov hP⟩
  · right
    rw [is_invocable_v_eq, hI] at hno
    have hnone : P f (args.map (fun a => a.1)) = none := by
      cases hP : P f (args.map (fun a => a.1)) with
      | none => rfl
      | some ov => simp [hP] at hno
    have h0 := INVOKE_deduce P f []
    simp only [List.map_nil] at h0
    simp only [invoke_result_t, h0] at hR
    cases hP0 : P f [] with
    | none => simp [hP0] at hR
    | some ov =>
      refine ⟨ov, hp, hnone, rfl, ?_⟩
      rcases args with _ | ⟨⟨v, val⟩, _ | ⟨b, bs⟩⟩
      · simp at hA
      · simp only [List.map_cons, List.map_nil, List.cons.injEq, and_true] at hA hnone
        subst hA
        exact invoke_eq_of_fallback cfg P f v val s ov hd hnone hP0
      · simp at hA

/-- Whether a call returns is decided by overload resolution alone. -/
theorem invoke_isSome {σ : Type} (cfg : Config) (P : Program σ) (f : Expr)
    (args : List (Expr × Val)) (s : σ) :
    (invoke cfg P f args s).isSome =
      (detail.invoke_t.select cfg P (deduce f) (args.map (fun a => deduce a.1))).isSome := by
  cases hsel : detail.invoke_t.select cfg P (deduce f) (args.map (fun a => deduce a.1)) with
  | none => simp [invoke, detail.invoke_t.call, hsel]
  | some sel =>
    rcases invoke_of_select cfg P f args s sel hsel with ⟨ov, _, _, h⟩ | ⟨ov, _, _, _, h⟩ <;>
      simp [h]

theorem decay_call_type (A : Ty) : decay_t (call_type A) = decay_t A := by
  rcases A with ⟨c, v⟩ | ⟨b, c, v⟩ | t | t
  · rfl
  · cases b <;> rfl
  · rfl
  · rfl

theorem unwrap_wrap_of_void (cfg : Config) (R : Ty) (h : is_void_v R = true) :
    unwrap_void cfg (wrap_void R) = Ty.real_void := by
  rcases cfg with ⟨a, b, c⟩
  rcases R with ⟨x, y⟩ | t | t | t
  · cases c <;> rfl
  · cases h
  · cases h
  · cases h

theorem is_void_v_wrap_void (T : Ty) : is_void_v (wrap_void T) = false := by
  cases T <;> rfl

/-! ## The claims on invocation -/

/-- C2. Fallback rule: for one argument `v` whose decayed type is `vd::Void`, when `f` is not
invocable with `v` but is invocable with no arguments, `vd::invoke(f, v)` gives the result of
`vd::invoke(f)`: the zero-argument call runs, its value is returned when the result type is
not void and the placeholder when it is void.  A placeholder argument of any const/volatile
qualification and value category has that decayed type. -/
theorem invoke_fallback_rule {σ : Type} (cfg : Config) (P : Program σ) (f v : Expr)
    (val : Val) (s : σ) (ov : Overload σ) (hv : decay_t (deduce v) = Ty.Void)
    (hno : P f [v] = none) (h0 : P f [] = some ov) :
    invoke cfg P f [(v, val)] s = invoke cfg P f [] s ∧
    (is_void_v ov.ret = false → invoke cfg P f [(v, val)] s = some (ov.body [] s)) ∧
    (is_void_v ov.ret = true →
      invoke cfg P f [(v, val)] s = some (Val.placeholder Void.mk, (ov.body [] s).2)) ∧
    (∀ (c w : Bool) (k : Cat), decay_t (deduce ⟨⟨Obj.Void, c, w⟩, k⟩) = Ty.Void) := by
  have key := invoke_eq_of_fallback cfg P f v val s ov hv hno h0
  have key0 := invoke_eq_of_primary cfg P f [] s ov h0
  simp only [List.map_nil] at key0
  refine ⟨by rw [key, key0], ?_, ?_, ?_⟩
  · intro h
    simpa [h] using key
  · intro h
    simpa [h] using key
  · intro c w k
    exact (decay_deduce_eq_Void _).2 rfl

/-- Witness for C2: the test's `invoke(get, vd::Void())` from `i = 3` returns 3 as
`invoke(get)` does, and `invoke(incr, vd::Void{})` from `i = 2` runs `incr` with its default
argument, leaving `i = 3`. -/
theorem invoke_fallback_rule_witness :
    invoke ⟨true, true, true⟩ test.program test.get [test.void_arg] 3 =
      invoke ⟨true, true, true⟩ test.program test.get [] 3 ∧
    invoke ⟨true, true, true⟩ test.program test.get [test.void_arg] 3 = some (Val.int 3, 3) ∧
    invoke ⟨false, false, false⟩ test.program test.incr [test.void_arg] 2 =
      some (Val.placeholder Void.mk, 3) :=
  ⟨(invoke_fallback_rule ⟨true, true, true⟩ test.program test.get test.void_arg.1
      test.void_arg.2 3 ⟨Ty.val Ty.int, fun _ i => (Val.int i, i)⟩ rfl rfl rfl).1,
   (invoke_fallback_rule ⟨true, true, true⟩ test.program test.get test.void_arg.1
      test.void_arg.2 3 ⟨Ty.val Ty.int, fun _ i => (Val.int i, i)⟩ rfl rfl rfl).2.1 rfl,
   (invoke_fallback_rule ⟨false, false, false⟩ test.program test.incr test.void_arg.1
      test.void_arg.2 2 ⟨Ty.real_void, fun _ i => (Val.novalue, i + 1)⟩ rfl rfl rfl).2.2.1 rfl⟩

/-- C3. Tie-break: when `f` is invocable with the single placeholder argument `v`, overload
resolution selects the first overload and `vd::invoke(f, v)` runs the call of `f` with `v`,
whether or not `f` is also invocable with no arguments; the second overload is selected only
when the call of `f` with `v` is not viable. -/
theorem invoke_tie_break {σ : Type} (cfg : Config) (P : Program σ) (f v : Expr) :
    (∀ (ov : Overload σ) (val : Val) (s : σ),
      decay_t (deduce v) = Ty.Void → P f [v] = some ov →
        detail.invoke_t.select cfg P (deduce f) [deduce v] =
          some (detail.invoke_t.Selected.primary (call_type ov.ret)) ∧
        invoke cfg P f [(v, val)] s =
          some (if is_void_v ov.ret then (Val.placeholder Void.mk, (ov.body [val] s).2)
                else ov.body [val] s)) ∧
    (∀ R : Ty,
      detail.invoke_t.select cfg P (deduce f) [deduce v] =
          some (detail.invoke_t.Selected.fallback R) →
        P f [v] = none) := by
  have hI : INVOKE P (deduce f) [deduce v] = P f [v] := by
    have := INVOKE_deduce P f [v]
    simpa only [List.map_cons, List.map_nil] using this
  constructor
  · intro ov val s _ h1
    constructor
    · apply select_primary
      simp [invoke_result_t, hI, h1]
    · have := invoke_eq_of_primary cfg P f [(v, val)] s ov (by simpa using h1)
      simpa using this
  · intro R hsel
    rcases select_cases cfg P _ _ _ hsel with ⟨_, hp⟩ | ⟨_, hno, _, _⟩
    · cases hp
    · rw [is_invocable_v_eq, hI] at hno
      cases hP : P f [v] with
      | none => rfl
      | some ov => simp [hP] at hno

/-- Witness for C3: a callable that accepts a placeholder (adding 1, returning 1) and also no
argument (adding 10, returning 0) is called with the placeholder. -/
theorem invoke_tie_break_witness :
    detail.invoke_t.select ⟨true, true, true⟩ example_both.program
        (deduce ⟨example_both.f_t, Cat.lvalue⟩) [deduce test.void_arg.1] =
      some (detail.invoke_t.Selected.primary (Ty.val Ty.int)) ∧
    invoke ⟨true, true, true⟩ example_both.program ⟨example_both.f_t, Cat.lvalue⟩
        [test.void_arg] 0 = some (Val.int 1, 1) :=
  (invoke_tie_break ⟨true, true, true⟩ example_both.program ⟨example_both.f_t, Cat.lvalue⟩
    test.void_arg.1).1 ⟨Ty.val Ty.int, fun _ i => (Val.int 1, i + 1)⟩ test.void_arg.2 0 rfl rfl

/-- C4. Side-effect transparency: whenever `vd::invoke(f, args...)` is well-formed it returns,
and the state after it is the state after one run of the selected body of `f`: the body for
`args` under the first overload, the zero-argument body under the second.  From `i = 2` the
test's five calls yield 2, the placeholder, 3, the placeholder, 5. -/
theorem invoke_side_effects :
    (∀ (σ : Type) (cfg : Config) (P : Program σ) (f : Expr) (args : List (Expr × Val))
        (s : σ) (sel : detail.invoke_t.Selected),
      detail.invoke_t.select cfg P (deduce f) (args.map (fun a => deduce a.1)) = some sel →
        (∃ ov, sel = detail.invoke_t.Selected.primary sel.R ∧
          P f (args.map (fun a => a.1)) = some ov ∧
          (invoke cfg P f args s).map (fun r => r.2) =
            some (ov.body (args.map (fun a => a.2)) s).2) ∨
        (∃ ov, sel = detail.invoke_t.Selected.fallback sel.R ∧
          P f (args.map (fun a => a.1)) = none ∧ P f [] = some ov ∧
          (invoke cfg P f args s).map (fun r => r.2) = some (ov.body [] s).2)) ∧
    (∀ cfg : Config,
      test.invocation cfg =
        some ([Val.int 2, Val.placeholder Void.mk, Val.int 3, Val.placeholder Void.mk,
          Val.int 5], 5)) := by
  constructor
  · intro σ cfg P f args s sel hsel
    rcases invoke_of_select cfg P f args s sel hsel with
      ⟨ov, hp, hP, h⟩ | ⟨ov, hp, hno, hP, h⟩
    · left
      refine ⟨ov, hp, hP, ?_⟩
      rw [h]
      cases is_void_v ov.ret <;> simp
    · right
      refine ⟨ov, hp, hno, hP, ?_⟩
      rw [h]
      cases is_void_v ov.ret <;> simp
  · intro cfg
    rcases cfg with ⟨a, b, c⟩
    cases a <;> cases b <;> cases c <;> rfl

/-- Witness for C4: the test's `invoke(incr, vd::Void{})` from `i = 2` is selected through the
second overload and leaves `i = 3`, one run of `incr()`. -/
theorem invoke_side_effects_witness :
    (invoke ⟨true, true, true⟩ test.program test.incr [test.void_arg] 2).map (fun r => r.2) =
      some 3 := by
  rcases invoke_side_effects.1 Int ⟨true, true, true⟩ test.program test.incr [test.void_arg] 2
    (detail.invoke_t.Selected.fallback Ty.real_void) rfl with ⟨ov, h, _⟩ | ⟨ov, _, _, h0, h⟩
  · cases h
  · have : ov = ⟨Ty.real_void, fun _ i => (Val.novalue, i + 1)⟩ := by
      have h1 : test.program test.incr [] =
          some ⟨Ty.real_void, fun _ i => (Val.novalue, i + 1)⟩ := rfl
      rw [h1] at h0
      exact (Option.some.inj h0).symm
    rw [h, this]
    rfl

/-! ## The claims on the invocability predicate and on well-formedness -/

theorem Producer_call_of_returnable (T : Ty) (h : (TypeArg.ty T).returnable = true) :
    detail.Producer.call (TypeArg.ty T) = call_expr T := by
  simp [detail.Producer.call, h]

theorem Producer_call_of_not_returnable (T : TypeArg) (h : T.returnable = false) :
    detail.Producer.call T = none := by
  cases T <;> simp [detail.Producer.call, h]

theorem Producer_calls_of_returnable (Ts : List Ty)
    (h : ∀ T ∈ Ts, (TypeArg.ty T).returnable = true) :
    detail.Producer.calls (Ts.map TypeArg.ty) = operands call_expr Ts := by
  induction Ts with
  | nil => rfl
  | cons T Ts ih =>
    have hT := Producer_call_of_returnable T (h T (List.mem_cons_self T Ts))
    have hTs := ih (fun U hU => h U (List.mem_cons_of_mem T hU))
    simp only [List.map_cons, detail.Producer.calls, operands, hT, hTs]

theorem Producer_calls_of_not_returnable (Ts : List TypeArg)
    (h : ∃ T ∈ Ts, T.returnable = false) : detail.Producer.calls Ts = none := by
  induction Ts with
  | nil =>
    obtain ⟨T, hT, _⟩ := h
    cases hT
  | cons U Us ih =>
    obtain ⟨T, hT, hr⟩ := h
    rcases List.mem_cons.1 hT with rfl | hmem
    · simp [detail.Producer.calls, Producer_call_of_not_returnable T hr]
    · have := ih ⟨T, hmem, hr⟩
      simp only [detail.Producer.calls, this]
      cases detail.Producer.call U <;> rfl

/-- Well-formedness of `vd::invoke` on the expressions that calls of functions returning `F`
and `Args...` yield. -/
theorem producer_invoke_iff {σ : Type} (cfg : Config) (P : Program σ) (F : Ty)
    (Args : List Ty) :
    (match call_expr F, operands call_expr Args with
      | some f, some as => (invoke_type cfg P f as).isSome
      | _, _ => false) = true ↔
    (is_invocable_v P (call_type F) (Args.map call_type) = true ∨
      ∃ A, Args = [A] ∧ decay_t A = Ty.Void ∧ is_invocable_v P (call_type F) [] = true) := by
  have hops : operands declval (Args.map call_type) = operands call_expr Args :=
    operands_congr declval call_expr call_type declval_call_type Args
  have hshape : (∃ A0, Args.map call_type = [A0] ∧ decay_t A0 = Ty.Void ∧
        is_invocable_v P (call_type F) [] = true) ↔
      (∃ A, Args = [A] ∧ decay_t A = Ty.Void ∧ is_invocable_v P (call_type F) [] = true) := by
    constructor
    · rintro ⟨A0, hA0, hd, h0⟩
      rcases Args with _ | ⟨A, _ | ⟨B, Bs⟩⟩
      · simp at hA0
      · simp only [List.map_cons, List.map_nil, List.cons.injEq, and_true] at hA0
        subst hA0
        exact ⟨A, rfl, by rw [← decay_call_type]; exact hd, h0⟩
      · simp at hA0
    · rintro ⟨A, rfl, hd, h0⟩
      exact ⟨call_type A, rfl, by rw [decay_call_type]; exact hd, h0⟩
  rw [← hshape, ← select_isSome_iff cfg]
  cases hf : call_expr F with
  | none =>
    have hsel : detail.invoke_t.select cfg P (call_type F) (Args.map call_type) = none := by
      have hd : declval (call_type F) = none := by
        rw [declval_call_type]
        exact hf
      have hnone : ∀ Ts, invoke_result_t P (call_type F) Ts = none := by
        intro Ts
        simp [invoke_result_t, INVOKE, hd]
      rw [select_eq]
      rcases Args.map call_type with _ | ⟨A, _ | ⟨B, Bs⟩⟩
      · simp [hnone]
      · simp only [hnone, Option.map_none', ite_self]
      · simp [hnone]
    simp [hsel]
  | some f =>
    cases has : operands call_expr Args with
    | none =>
      have hsel : detail.invoke_t.select cfg P (call_type F) (Args.map call_type) = none := by
        cases hs : detail.invoke_t.select cfg P (call_type F) (Args.map call_type) with
        | none => rfl
        | some sel =>
          exfalso
          rcases select_cases cfg P _ _ sel hs with ⟨hR, _⟩ | ⟨⟨A0, hA0, hd0⟩, _, _, _⟩
          · have hi : (INVOKE P (call_type F) (Args.map call_type)).isSome = true := by
              simp only [invoke_result_t] at hR
              cases hI : INVOKE P (call_type F) (Args.map call_type) with
              | none => simp [hI] at hR
              | some ov => rfl
            obtain ⟨_, as, _, hops2⟩ := INVOKE_isSome_operands P _ _ hi
            rw [hops, has] at hops2
            cases hops2
          · obtain ⟨a0, ha0⟩ := declval_isSome_of_decay A0 hd0
            have : operands declval (Args.map call_type) = some [a0] := by
              rw [hA0]
              simp [operands, ha0]
            rw [hops, has] at this
            cases this
      simp [hsel]
    | some as =>
      have hd : declval (call_type F) = some f := by
        rw [declval_call_type]
        exact hf
      have hsd := select_deduce cfg P (call_type F) (Args.map call_type) f as hd
        (by rw [hops]; exact has)
      simp only [invoke_type, detail.invoke_t.return_type, Option.isSome_map', hsd]

/-- C5, as stated, fails: for `F = void(*)(int&&)` and `Args = const int` the concept
`vd::invocable<F, const int>` holds, because the producer `const int(*)()` yields a prvalue of
type `int`, although `F` is not invocable with `const int` and `const int` does not decay to
the placeholder. -/
theorem invocable_not_exact :
    invocable ⟨true, true, true⟩ example_rvalue.program (TypeArg.ty example_rvalue.F)
        [TypeArg.ty example_rvalue.const_int] = some true ∧
    ¬ (is_invocable_v example_rvalue.program example_rvalue.F [example_rvalue.const_int] = true ∨
        ∃ A, [example_rvalue.const_int] = [A] ∧ decay_t A = Ty.Void ∧
          is_invocable_v example_rvalue.program example_rvalue.F [] = true) := by
  refine ⟨rfl, ?_⟩
  rintro (h | ⟨A, _, _, h⟩)
  · exact absurd h (by decide)
  · exact absurd h (by decide)

/-- C5, amended. Under `__cpp_concepts`: when `F` or one of `Args` is a type of which no call
of a producer is well-formed (an array type, a function type, a class that no call can yield
as a temporary, such as an abstract class), `vd::invocable<F, Args...>` is false.  Otherwise
it is true exactly when `F0` is directly invocable with `Args0...`, or `Args` is one type
whose decayed type is `vd::Void` and `F0` is invocable with no arguments, where `X0` is the
type of the expression a producer `X(*)()` yields: `X` with top-level cv dropped when `X` is
not a reference and not a class.  When `F` and `Args` are left unchanged by that, this is the
statement for `F` and `Args`. -/
theorem invocable_exact {σ : Type} (cfg : Config) (P : Program σ)
    (hc : cfg.cpp_concepts = true) :
    (∀ (F : TypeArg) (Args : List TypeArg),
      (F.returnable = false ∨ ∃ A ∈ Args, A.returnable = false) →
        invocable cfg P F Args = some false) ∧
    (∀ (F : Ty) (Args : List Ty),
      (TypeArg.ty F).returnable = true → (∀ A ∈ Args, (TypeArg.ty A).returnable = true) →
      ∃ b, invocable cfg P (TypeArg.ty F) (Args.map TypeArg.ty) = some b ∧
        (b = true ↔
          (is_invocable_v P (call_type F) (Args.map call_type) = true ∨
            ∃ A, Args = [A] ∧ decay_t A = Ty.Void ∧
              is_invocable_v P (call_type F) [] = true)) ∧
        (call_type F = F → Args.map call_type = Args →
          (b = true ↔
            (is_invocable_v P F Args = true ∨
              ∃ A, Args = [A] ∧ decay_t A = Ty.Void ∧ is_invocable_v P F [] = true)))) := by
  constructor
  · intro F Args h
    simp only [invocable, hc, if_true]
    rcases h with hF | hA
    · rw [Producer_call_of_not_returnable F hF]
    · rw [Producer_calls_of_not_returnable Args hA]
      cases detail.Producer.call F <;> rfl
  · intro F Args hF hA
    have hiff := producer_invoke_iff cfg P F Args
    have hinv : invocable cfg P (TypeArg.ty F) (Args.map TypeArg.ty) =
        some (match call_expr F, operands call_expr Args with
          | some f, some as => (invoke_type cfg P f as).isSome
          | _, _ => false) := by
      simp only [invocable, hc, if_true, Producer_call_of_returnable F hF,
        Producer_calls_of_returnable Args hA]
    refine ⟨_, hinv, hiff, ?_⟩
    intro hF0 hA0
    rw [hF0, hA0] at hiff
    exact hiff

/-- Witness for C5: the test's zero-argument `get` is not `std::invocable` with a placeholder
but is `vd::invocable` with one, and is `vd::invocable` with no arguments; a function type and
an abstract class are not `vd::invocable`. -/
theorem invocable_exact_witness :
    (∃ b, invocable ⟨true, true, true⟩ test.program (TypeArg.ty (Ty.val test.get_t))
        ([Ty.Void].map TypeArg.ty) = some b ∧
      (b = true ↔
        (is_invocable_v test.program (call_type (Ty.val test.get_t))
            ([Ty.Void].map call_type) = true ∨
          ∃ A, [Ty.Void] = [A] ∧ decay_t A = Ty.Void ∧
            is_invocable_v test.program (call_type (Ty.val test.get_t)) [] = true)) ∧
      (call_type (Ty.val test.get_t) = Ty.val test.get_t →
        [Ty.Void].map call_type = [Ty.Void] →
        (b = true ↔
          (is_invocable_v test.program (Ty.val test.get_t) [Ty.Void] = true ∨
            ∃ A, [Ty.Void] = [A] ∧ decay_t A = Ty.Void ∧
              is_invocable_v test.program (Ty.val test.get_t) [] = true)))) ∧
    invocable ⟨true, true, true⟩ test.program (TypeArg.function_type 0) [] = some false ∧
    invocable ⟨true, true, true⟩ test.program
      (TypeArg.ty (Ty.val ⟨Obj.cls_of 0 Void_base.absent false, false, false⟩)) [] =
        some false ∧
    std_invocable test.program (Ty.val test.get_t) [Ty.Void] = false ∧
    invocable ⟨true, true, true⟩ test.program (TypeArg.ty (Ty.val test.get_t))
      [TypeArg.ty Ty.Void] = some true ∧
    std_invocable test.program (Ty.val test.get_t) [] = true ∧
    invocable ⟨true, true, true⟩ test.program (TypeArg.ty (Ty.val test.get_t)) [] =
      some true :=
  ⟨(invocable_exact ⟨true, true, true⟩ test.program rfl).2 (Ty.val test.get_t) [Ty.Void] rfl
      (by decide),
   (invocable_exact ⟨true, true, true⟩ test.program rfl).1 (TypeArg.function_type 0) []
      (Or.inl rfl),
   (invocable_exact ⟨true, true, true⟩ test.program rfl).1
      (TypeArg.ty (Ty.val ⟨Obj.cls_of 0 Void_base.absent false, false, false⟩)) []
      (Or.inl rfl),
   rfl, rfl, rfl, rfl⟩

/-- C6. No other argument dropping: unless `Args` is exactly one type whose decayed type is
`vd::Void`, `vd::invoke` is well-formed exactly when `F` is directly invocable with `Args...`;
in the one-placeholder shape it is rejected when `F` is invocable neither with that argument
nor with no arguments.  Whether a call returns is decided by overload resolution, not by the
argument values or the state: there is no run-time failure. -/
theorem invoke_no_other_dropping {σ : Type} (cfg : Config) (P : Program σ) (F : Ty)
    (Args : List Ty) :
    ((¬ ∃ A, Args = [A] ∧ decay_t A = Ty.Void) →
      (detail.invoke_t.select cfg P F Args).isSome = is_invocable_v P F Args) ∧
    (∀ A, Args = [A] → decay_t A = Ty.Void → is_invocable_v P F [A] = false →
      is_invocable_v P F [] = false → detail.invoke_t.select cfg P F Args = none) ∧
    (∀ (f : Expr) (args : List (Expr × Val)) (s : σ),
      F = deduce f → Args = args.map (fun a => deduce a.1) →
        (invoke cfg P f args s).isSome = (detail.invoke_t.select cfg P F Args).isSome) := by
  refine ⟨?_, ?_, ?_⟩
  · intro hshape
    rw [Bool.eq_iff_iff, select_isSome_iff]
    constructor
    · rintro (h | ⟨A, hA, hd, _⟩)
      · exact h
      · exact absurd ⟨A, hA, hd⟩ hshape
    · exact Or.inl
  · intro A hA hd h1 h0
    subst hA
    have := (select_isSome_iff cfg P F [A]).not.2 (by
      rintro (h | ⟨_, _, _, h⟩)
      · rw [h1] at h
        cases h
      · rw [h0] at h
        cases h)
    simpa using this
  · intro f args s hF hA
    subst hF
    subst hA
    exact invoke_isSome cfg P f args s

/-- Witness for C6: the test's `incr` with the two arguments `(vd::Void{}, 2)` is rejected, as
the direct call is; and `get` with the one argument `2` is rejected. -/
theorem invoke_no_other_dropping_witness :
    (detail.invoke_t.select ⟨true, true, true⟩ test.program (deduce test.incr)
        [Ty.Void, Ty.val Ty.int]).isSome =
      is_invocable_v test.program (deduce test.incr) [Ty.Void, Ty.val Ty.int] ∧
    is_invocable_v test.program (deduce test.incr) [Ty.Void, Ty.val Ty.int] = false ∧
    detail.invoke_t.select ⟨true, true, true⟩ example_rvalue.program example_rvalue.F
        [Ty.Void] = none :=
  ⟨(invoke_no_other_dropping ⟨true, true, true⟩ test.program (deduce test.incr)
      [Ty.Void, Ty.val Ty.int]).1 (by simp),
   rfl,
   (invoke_no_other_dropping ⟨true, true, true⟩ example_rvalue.program example_rvalue.F
      [Ty.Void]).2.1 Ty.Void rfl rfl rfl rfl⟩

/-! ## The claims on types -/

/-- C7. Result type of invocation: whenever `vd::invoke(f, args...)` is well-formed its type is
`wrap_void<R>`, with `R` the result type of calling `F` with `Args...` when that call is
well-formed (first overload) and the result type of calling `F` with no arguments otherwise
(second overload). -/
theorem invoke_type_eq {σ : Type} (cfg : Config) (P : Program σ) (f : Expr)
    (args : List Expr) (T : Ty) (h : invoke_type cfg P f args = some T) :
    (is_invocable_v P (deduce f) (args.map deduce) = true →
      ∃ R, invoke_result_t P (deduce f) (args.map deduce) = some R ∧
        detail.invoke_t.select cfg P (deduce f) (args.map deduce) =
          some (detail.invoke_t.Selected.primary R) ∧
        T = wrap_void R) ∧
    (is_invocable_v P (deduce f) (args.map deduce) = false →
      ∃ R, invoke_result_t P (deduce f) [] = some R ∧
        detail.invoke_t.select cfg P (deduce f) (args.map deduce) =
          some (detail.invoke_t.Selected.fallback R) ∧
        T = wrap_void R) := by
  simp only [invoke_type, detail.invoke_t.return_type, Option.map_map] at h
  cases hsel : detail.invoke_t.select cfg P (deduce f) (args.map deduce) with
  | none => simp [hsel] at h
  | some sel =>
    simp only [hsel, Option.map_some', Function.comp_apply, Option.some.injEq] at h
    rcases select_cases cfg P _ _ sel hsel with ⟨hR, hp⟩ | ⟨_, hno, hR, hp⟩
    · have hT : T = wrap_void sel.R := by
        rw [← h, ← invoke_result_t_call_type P _ _ _ hR, call_type_wrap_void]
      constructor
      · intro _
        exact ⟨sel.R, hR, by rw [← hp], hT⟩
      · intro hi
        simp [is_invocable_v, hR] at hi
    · have hT : T = wrap_void sel.R := by
        rw [← h, ← invoke_result_t_call_type P _ _ _ hR, call_type_wrap_void]
      constructor
      · intro hi
        rw [hno] at hi
        cases hi
      · intro _
        exact ⟨sel.R, hR, by rw [← hp], hT⟩

/-- Witness for C7: the test's `invoke(incr, vd::Void{})` has type `vd::Void`, the wrapped
result type of `incr()`. -/
theorem invoke_type_eq_witness :
    ∃ R, invoke_result_t test.program (deduce test.incr) [] = some R ∧
      detail.invoke_t.select ⟨true, true, true⟩ test.program (deduce test.incr)
          ([test.void_arg.1].map deduce) =
        some (detail.invoke_t.Selected.fallback R) ∧
      Ty.Void = wrap_void R :=
  (invoke_type_eq ⟨true, true, true⟩ test.program test.incr [test.void_arg.1] Ty.Void rfl).2 rfl

/-- C8. A storable result is always produced: `wrap_void<T>` is never a void type, and the
type of a well-formed `vd::invoke(f, args...)` is never a void type. -/
theorem invoke_type_not_void :
    (∀ T : Ty, is_void_v (wrap_void T) = false) ∧
    (∀ (σ : Type) (cfg : Config) (P : Program σ) (f : Expr) (args : List Expr) (T : Ty),
      invoke_type cfg P f args = some T → is_void_v T = false) := by
  refine ⟨is_void_v_wrap_void, ?_⟩
  intro σ cfg P f args T h
  simp only [invoke_type, detail.invoke_t.return_type, Option.map_map] at h
  cases hsel : detail.invoke_t.select cfg P (deduce f) (args.map deduce) with
  | none => simp [hsel] at h
  | some sel =>
    simp only [hsel, Option.map_some', Function.comp_apply, Option.some.injEq] at h
    rw [← h, is_void_v_call_type, is_void_v_wrap_void]

/-- Witness for C8: the type of the test's `invoke(incr, 2)`, whose callable returns `void`, is
not a void type. -/
theorem invoke_type_not_void_witness :
    invoke_type ⟨true, true, true⟩ test.program test.incr [test.two_arg.1] = some Ty.Void ∧
    is_void_v Ty.Void = false :=
  ⟨rfl, invoke_type_not_void.2 Int ⟨true, true, true⟩ test.program test.incr [test.two_arg.1]
    Ty.Void rfl⟩

/-- C9. Result-type query: whenever `vd::invoke` is well-formed for `F` and `Args`, with `R` the
result type of the selected call, `void_result_t<F, Args...>` is `unwrap_void` of the type of
`vd::invoke(std::declval<F>(), std::declval<Args>()...)`, that is
`unwrap_void<wrap_void<R>>`, and it is `void` whenever `R` is void, under either overload. -/
theorem void_result_t_eq {σ : Type} (cfg : Config) (P : Program σ) (F : Ty) (Args : List Ty)
    (sel : detail.invoke_t.Selected) (h : detail.invoke_t.select cfg P F Args = some sel) :
    (∃ f as T, declval F = some f ∧ operands declval Args = some as ∧
      invoke_type cfg P f as = some T ∧ T = wrap_void sel.R ∧
      void_result_t cfg P F Args = some (unwrap_void cfg T)) ∧
    ((sel = detail.invoke_t.Selected.primary sel.R ∧ invoke_result_t P F Args = some sel.R) ∨
      (sel = detail.invoke_t.Selected.fallback sel.R ∧ invoke_result_t P F [] = some sel.R)) ∧
    void_result_t cfg P F Args = some (unwrap_void cfg (wrap_void sel.R)) ∧
    (is_void_v sel.R = true → void_result_t cfg P F Args = some Ty.real_void) := by
  have hops : ∃ f as, declval F = some f ∧ operands declval Args = some as := by
    rcases select_cases cfg P F Args sel h with ⟨hR, _⟩ | ⟨⟨A, hA, hd⟩, _, hR, _⟩
    · apply INVOKE_isSome_operands P
      simp only [invoke_result_t] at hR
      cases hI : INVOKE P F Args with
      | none => simp [hI] at hR
      | some ov => rfl
    · have hi : (INVOKE P F []).isSome = true := by
        simp only [invoke_result_t] at hR
        cases hI : INVOKE P F [] with
        | none => simp [hI] at hR
        | some ov => rfl
      obtain ⟨f, _, hf, _⟩ := INVOKE_isSome_operands P F [] hi
      obtain ⟨a, ha⟩ := declval_isSome_of_decay A hd
      exact ⟨f, [a], hf, by rw [hA]; simp [operands, ha]⟩
  obtain ⟨f, as, hf, has⟩ := hops
  have hadj : call_type sel.R = sel.R := by
    rcases select_cases cfg P F Args sel h with ⟨hR, _⟩ | ⟨_, _, hR, _⟩
    · exact invoke_result_t_call_type P _ _ _ hR
    · exact invoke_result_t_call_type P _ _ _ hR
  have hty : invoke_type cfg P f as = some (wrap_void sel.R) := by
    simp only [invoke_type, detail.invoke_t.return_type, select_deduce cfg P F Args f as hf has,
      h, Option.map_some']
    rw [← hadj, call_type_wrap_void]
  have hres : void_result_t cfg P F Args = some (unwrap_void cfg (wrap_void sel.R)) := by
    simp [void_result_t, hf, has, hty]
  refine ⟨⟨f, as, wrap_void sel.R, hf, has, hty, rfl, hres⟩, ?_, hres, ?_⟩
  · rcases select_cases cfg P F Args sel h with ⟨hR, hp⟩ | ⟨_, _, hR, hp⟩
    · exact Or.inl ⟨hp, hR⟩
    · exact Or.inr ⟨hp, hR⟩
  · intro hv
    rw [hres, unwrap_wrap_of_void cfg sel.R hv]

/-- Witness for C9: for the test's callables `void_result_t<incr, int>` (first overload) and
`void_result_t<incr, vd::Void>` (second overload) are `void`. -/
theorem void_result_t_eq_witness :
    void_result_t ⟨true, true, true⟩ test.program (Ty.val test.incr_t) [Ty.val Ty.int] =
      some Ty.real_void ∧
    void_result_t ⟨false, false, false⟩ test.program (Ty.val test.incr_t) [Ty.Void] =
      some Ty.real_void :=
  ⟨(void_result_t_eq ⟨true, true, true⟩ test.program (Ty.val test.incr_t) [Ty.val Ty.int]
      (detail.invoke_t.Selected.primary Ty.real_void) rfl).2.2.2 rfl,
   (void_result_t_eq ⟨false, false, false⟩ test.program (Ty.val test.incr_t) [Ty.Void]
      (detail.invoke_t.Selected.fallback Ty.real_void) rfl).2.2.2 rfl⟩

/-! ## The claims on the placeholder -/

/-- C10. For every pair of placeholders `a`, `b`, in either comparison branch: `a == b` is
true, `a != b` is false, `a < b` is false, `a <= b` is true, `a > b` is false and `a >= b` is
true. -/
theorem Void_relational (cfg : Config) (a b : Void) :
    Void.eq a b = true ∧ Void.ne cfg a b = false ∧ Void.lt cfg a b = false ∧
    Void.le cfg a b = true ∧ Void.gt cfg a b = false ∧ Void.ge cfg a b = true := by
  rcases cfg with ⟨x, y, z⟩
  cases x <;> exact ⟨rfl, rfl, rfl, rfl, rfl, rfl⟩

/-! ## The claims on wrap_void and unwrap_void -/

theorem remove_cv_remove_reference (T : Ty) :
    remove_cv_t (remove_reference_t T) = remove_cvref_t T := by
  cases T <;> rfl

theorem unwrap_void_of_placeholder (cfg : Config) (T : Ty) (h : remove_cvref_t T = Ty.Void) :
    unwrap_void cfg T = Ty.real_void := by
  simp [unwrap_void, remove_cv_remove_reference, h, is_same_v, detail.if_c]

theorem unwrap_void_of_other (cfg : Config) (T : Ty) (h : remove_cvref_t T ≠ Ty.Void) :
    unwrap_void cfg T = T := by
  simp [unwrap_void, remove_cv_remove_reference, h, is_same_v, detail.if_c]

theorem wrap_void_of_void (T : Ty) (h : is_void_v T = true) : wrap_void T = Ty.Void := by
  simp [wrap_void, h, detail.if_c]

theorem wrap_void_of_other (T : Ty) (h : is_void_v T = false) : wrap_void T = T := by
  simp [wrap_void, h, detail.if_c]

/-- C11. wrap: `wrap_void<T>` is `vd::Void` when `T` is cv `void`, and `T` itself for every
other type; `wrap_void<int>` is `int`. -/
theorem wrap_void_cases :
    (∀ c v : Bool, wrap_void (Ty.void c v) = Ty.Void) ∧
    (∀ T : Ty, (∀ c v : Bool, T ≠ Ty.void c v) → wrap_void T = T) ∧
    wrap_void (Ty.val Ty.int) = Ty.val Ty.int := by
  refine ⟨fun _ _ => rfl, ?_, rfl⟩
  intro T hT
  apply wrap_void_of_other
  cases T with
  | void c v => exact absurd rfl (hT c v)
  | val t => rfl
  | lref t => rfl
  | rref t => rfl

/-- Witness for C11: `wrap_void<int const&>` is `int const&`. -/
theorem wrap_void_cases_witness :
    wrap_void (Ty.lref ⟨Obj.scalar 0, true, false⟩) = Ty.lref ⟨Obj.scalar 0, true, false⟩ :=
  wrap_void_cases.2.1 (Ty.lref ⟨Obj.scalar 0, true, false⟩) (fun _ _ h => Ty.noConfusion h)

/-- C12. unwrap: `unwrap_void<T>` is `void` when `T` with const, volatile and reference
removed is `vd::Void`, and `T` itself for every other type, in either library branch; so
`Void`, `const Void`, `Void&`, `const Void&` and `Void&&` unwrap to `void`, and
`unwrap_void<void>` is `void`, `unwrap_void<int>` is `int`. -/
theorem unwrap_void_eq (cfg : Config) :
    (∀ T : Ty, remove_cvref_t T = Ty.Void → unwrap_void cfg T = Ty.real_void) ∧
    (∀ T : Ty, remove_cvref_t T ≠ Ty.Void → unwrap_void cfg T = T) ∧
    (∀ c v : Bool,
      unwrap_void cfg (Ty.val ⟨Obj.Void, c, v⟩) = Ty.real_void ∧
      unwrap_void cfg (Ty.lref ⟨Obj.Void, c, v⟩) = Ty.real_void ∧
      unwrap_void cfg (Ty.rref ⟨Obj.Void, c, v⟩) = Ty.real_void) ∧
    unwrap_void cfg Ty.real_void = Ty.real_void ∧
    unwrap_void cfg (Ty.val Ty.int) = Ty.val Ty.int := by
  refine ⟨unwrap_void_of_placeholder cfg, unwrap_void_of_other cfg, ?_, ?_, ?_⟩
  · intro c v
    exact ⟨unwrap_void_of_placeholder cfg _ rfl, unwrap_void_of_placeholder cfg _ rfl,
      unwrap_void_of_placeholder cfg _ rfl⟩
  · exact unwrap_void_of_other cfg _ (by decide)
  · exact unwrap_void_of_other cfg _ (by decide)

/-- Witness for C12: `unwrap_void<const Void&>` is `void` and `unwrap_void<int&&>` is
`int&&`. -/
theorem unwrap_void_eq_witness :
    unwrap_void ⟨false, false, false⟩ (Ty.lref ⟨Obj.Void, true, false⟩) = Ty.real_void ∧
    unwrap_void ⟨true, true, true⟩ (Ty.rref Ty.int) = Ty.rref Ty.int :=
  ⟨(unwrap_void_eq ⟨false, false, false⟩).1 (Ty.lref ⟨Obj.Void, true, false⟩) rfl,
   (unwrap_void_eq ⟨true, true, true⟩).2.1 (Ty.rref Ty.int) (by decide)⟩

/-- C13. On the two types `void` and `vd::Void` the transformations are inverse to each other:
`wrap_void<void>` is `Void`, `unwrap_void<Void>` is `void`, `unwrap_void<wrap_void<void>>` is
`void` and `wrap_void<unwrap_void<Void>>` is `Void`. -/
theorem wrap_unwrap_inverse (cfg : Config) :
    wrap_void Ty.real_void = Ty.Void ∧
    unwrap_void cfg Ty.Void = Ty.real_void ∧
    unwrap_void cfg (wrap_void Ty.real_void) = Ty.real_void ∧
    wrap_void (unwrap_void cfg Ty.Void) = Ty.Void := by
  have h1 : wrap_void Ty.real_void = Ty.Void := rfl
  have h2 : unwrap_void cfg Ty.Void = Ty.real_void := unwrap_void_of_placeholder cfg _ rfl
  exact ⟨h1, h2, by rw [h1, h2], by rw [h2, h1]⟩

/-- C14, as stated, fails: `Void&` and `const Void` are neither `void` nor `vd::Void`, yet
`unwrap_void` maps them to `void`, and wrapping that gives `Void`, not the type started
from. -/
theorem wrap_unwrap_not_identity :
    Ty.lref ⟨Obj.Void, false, false⟩ ≠ Ty.real_void ∧
    Ty.lref ⟨Obj.Void, false, false⟩ ≠ Ty.Void ∧
    unwrap_void ⟨true, true, true⟩ (Ty.lref ⟨Obj.Void, false, false⟩) ≠
      Ty.lref ⟨Obj.Void, false, false⟩ ∧
    wrap_void (unwrap_void ⟨true, true, true⟩ (Ty.lref ⟨Obj.Void, false, false⟩)) ≠
      Ty.lref ⟨Obj.Void, false, false⟩ ∧
    Ty.val ⟨Obj.Void, true, false⟩ ≠ Ty.real_void ∧
    Ty.val ⟨Obj.Void, true, false⟩ ≠ Ty.Void ∧
    unwrap_void ⟨false, false, false⟩ (Ty.val ⟨Obj.Void, true, false⟩) ≠
      Ty.val ⟨Obj.Void, true, false⟩ := by
  decide

/-- C14, amended. Identity elsewhere: for every type `T` that is not cv `void` and is not
`vd::Void` with any const, volatile or reference qualification, `wrap_void<T>` is `T` and
`unwrap_void<T>` is `T`, so applying the two in either order returns `T`. -/
theorem wrap_unwrap_identity_elsewhere (cfg : Config) (T : Ty) (hv : is_void_v T = false)
    (hp : remove_cvref_t T ≠ Ty.Void) :
    wrap_void T = T ∧ unwrap_void cfg T = T ∧
    unwrap_void cfg (wrap_void T) = T ∧ wrap_void (unwrap_void cfg T) = T := by
  have h1 := wrap_void_of_other T hv
  have h2 := unwrap_void_of_other cfg T hp
  exact ⟨h1, h2, by rw [h1, h2], by rw [h2, h1]⟩

/-- Witness for C14: `int` and `const int&` are left alone by both transformations. -/
theorem wrap_unwrap_identity_elsewhere_witness :
    (wrap_void (Ty.val Ty.int) = Ty.val Ty.int ∧
      unwrap_void ⟨true, true, true⟩ (Ty.val Ty.int) = Ty.val Ty.int ∧
      unwrap_void ⟨true, true, true⟩ (wrap_void (Ty.val Ty.int)) = Ty.val Ty.int ∧
      wrap_void (unwrap_void ⟨true, true, true⟩ (Ty.val Ty.int)) = Ty.val Ty.int) ∧
    unwrap_void ⟨false, false, false⟩ (Ty.lref ⟨Obj.scalar 0, true, false⟩) =
      Ty.lref ⟨Obj.scalar 0, true, false⟩ :=
  ⟨wrap_unwrap_identity_elsewhere ⟨true, true, true⟩ (Ty.val Ty.int) rfl (by decide),
   (wrap_unwrap_identity_elsewhere ⟨false, false, false⟩ (Ty.lref ⟨Obj.scalar 0, true, false⟩)
      rfl (by decide)).2.1⟩

/-! ## The claims on the constructors -/

theorem discard_constraint_eq (cfg : Config) (Arg : Ty) :
    Void.discard_constraint cfg Arg = !is_base_of_v_Void (remove_reference_t Arg) := by
  simp [Void.discard_constraint]

theorem is_base_of_deduce (e : Expr) :
    is_base_of_v_Void (remove_reference_t (deduce e)) = e.ty.base.has_base_Void := by
  rcases e with ⟨t, k⟩
  cases k <;> rfl

/-- With `Void` as a private, protected or ambiguous base neither the template nor the copy
and move constructors accept the source. -/
theorem not_constructible_of_hidden_base (cfg : Config) (n : Nat) (r c v : Bool) (k : Cat) :
    Void.select_ctor cfg [⟨⟨Obj.cls_of n Void_base.hidden r, c, v⟩, k⟩] = none := by
  cases k <;>
    simp [Void.select_ctor, Void.Ctor.viable, Void.discard_constraint, is_base_of_v_Void,
      Obj.has_base_Void, Obj.binds_to_Void, deduce, remove_reference_t]

theorem discard_viable_eq (cfg : Config) (e : Expr) (es : List Expr) :
    Void.Ctor.viable cfg Void.Ctor.discard_ctor (e :: es) = !e.ty.base.has_base_Void := by
  simp [Void.Ctor.viable, discard_constraint_eq, is_base_of_deduce]

/-- C16. The discarding constructor is never selected for a placeholder source: for every
first template argument `Arg` whose reference-stripped type is `vd::Void` with any
cv-qualification, or a class derived from it, the template's constraint is false, so the
template is not viable for any argument list starting with such an argument; constructing from
a `Void` lvalue or const lvalue selects the copy constructor, from a `Void` rvalue the move
constructor. -/
theorem Void_discard_excluded (cfg : Config) :
    (∀ Arg : Ty, is_base_of_v_Void (remove_reference_t Arg) = true →
      Void.discard_constraint cfg Arg = false) ∧
    (∀ (Arg : Ty) (t : CvObj), remove_reference_t Arg = Ty.val t →
      (t.base = Obj.Void ∨ ∃ n, t.base = Obj.derived n) →
      Void.discard_constraint cfg Arg = false) ∧
    (∀ (e : Expr) (es : List Expr), e.ty.base.has_base_Void = true →
      Void.Ctor.viable cfg Void.Ctor.discard_ctor (e :: es) = false ∧
      Void.select_ctor cfg (e :: es) ≠ some Void.Ctor.discard_ctor) ∧
    (∀ c : Bool,
      Void.select_ctor cfg [⟨⟨Obj.Void, c, false⟩, Cat.lvalue⟩] = some Void.Ctor.copy_ctor) ∧
    Void.select_ctor cfg [⟨⟨Obj.Void, false, false⟩, Cat.rvalue⟩] = some Void.Ctor.move_ctor ∧
    Void.select_ctor cfg [⟨⟨Obj.Void, true, false⟩, Cat.rvalue⟩] = some Void.Ctor.copy_ctor := by
  have hsel : ∀ (e : Expr) (es : List Expr), e.ty.base.has_base_Void = true →
      Void.Ctor.viable cfg Void.Ctor.discard_ctor (e :: es) = false ∧
      Void.select_ctor cfg (e :: es) ≠ some Void.Ctor.discard_ctor := by
    intro e es hb
    have hd : Void.Ctor.viable cfg Void.Ctor.discard_ctor (e :: es) = false := by
      simp [discard_viable_eq, hb]
    refine ⟨hd, ?_⟩
    unfold Void.select_ctor
    rw [hd]
    simp only [Bool.false_eq_true, if_false]
    split_ifs <;> simp
  refine ⟨?_, ?_, hsel, ?_, ?_, ?_⟩
  · intro Arg h
    simp [discard_constraint_eq, h]
  · intro Arg t ht hb
    rw [discard_constraint_eq, ht]
    rcases hb with hb | ⟨n, hb⟩ <;> simp [is_base_of_v_Void, hb, Obj.has_base_Void]
  · intro c
    simp [Void.select_ctor, Void.Ctor.viable, discard_constraint_eq, is_base_of_deduce,
      Obj.has_base_Void, Obj.binds_to_Void]
  · simp [Void.select_ctor, Void.Ctor.viable, discard_constraint_eq, is_base_of_deduce,
      Obj.has_base_Void, Obj.binds_to_Void]
  · simp [Void.select_ctor, Void.Ctor.viable, discard_constraint_eq, is_base_of_deduce,
      Obj.has_base_Void, Obj.binds_to_Void]

/-- Witness for C16: for `Arg = const volatile Void&` and for an rvalue of a class derived from
`Void` the template is excluded. -/
theorem Void_discard_excluded_witness :
    Void.discard_constraint ⟨true, true, true⟩ (Ty.lref ⟨Obj.Void, true, true⟩) = false ∧
    Void.discard_constraint ⟨false, false, false⟩ (Ty.val ⟨Obj.derived 0, false, false⟩) =
      false ∧
    Void.Ctor.viable ⟨true, true, true⟩ Void.Ctor.discard_ctor
      [test.void_arg.1, test.two_arg.1] = false :=
  ⟨(Void_discard_excluded ⟨true, true, true⟩).1 (Ty.lref ⟨Obj.Void, true, true⟩) rfl,
   (Void_discard_excluded ⟨false, false, false⟩).2.1 (Ty.val ⟨Obj.derived 0, false, false⟩)
      ⟨Obj.derived 0, false, false⟩ rfl (Or.inr ⟨0, rfl⟩),
   ((Void_discard_excluded ⟨true, true, true⟩).2.2.1 test.void_arg.1 [test.two_arg.1] rfl).1⟩

/-! ## The remaining claims -/

/-- C17. The two implementations of the relational operators agree: for every pair of
placeholders each of `!=`, `<`, `<=`, `>`, `>=` derived from `operator==` and `operator<=>`
equals the hand-written operator (`operator==` itself is shared), so no comparison depends
on the branch. -/
theorem relational_branches_agree (a b : Void) :
    (Void.ne_3way a b = Void.ne_hand a b ∧ Void.lt_3way a b = Void.lt_hand a b ∧
      Void.le_3way a b = Void.le_hand a b ∧ Void.gt_3way a b = Void.gt_hand a b ∧
      Void.ge_3way a b = Void.ge_hand a b) ∧
    (∀ cfg1 cfg2 : Config,
      Void.ne cfg1 a b = Void.ne cfg2 a b ∧ Void.lt cfg1 a b = Void.lt cfg2 a b ∧
      Void.le cfg1 a b = Void.le cfg2 a b ∧ Void.gt cfg1 a b = Void.gt cfg2 a b ∧
      Void.ge cfg1 a b = Void.ge cfg2 a b) := by
  refine ⟨⟨rfl, rfl, rfl, rfl, rfl⟩, ?_⟩
  intro cfg1 cfg2
  rcases cfg1 with ⟨x1, y1, z1⟩
  rcases cfg2 with ⟨x2, y2, z2⟩
  cases x1 <;> cases x2 <;> exact ⟨rfl, rfl, rfl, rfl, rfl⟩

/-- C18. Dispatch is unambiguous: the first overload is viable exactly when `F` is directly
invocable with `Args...`; the second exactly when `Args` is one type decaying to `vd::Void`,
`F` is not invocable with it and `F` is invocable with no arguments; the two are never both
viable; and the selected overload does not depend on the preprocessor branch. -/
theorem invoke_dispatch_unambiguous {σ : Type} (cfg : Config) (P : Program σ) (F : Ty)
    (Args : List Ty) :
    ((detail.invoke_t.primary_R P F Args).isSome = true ↔ is_invocable_v P F Args = true) ∧
    ((detail.invoke_t.fallback_R cfg P F Args).isSome = true ↔
      ∃ A, Args = [A] ∧ decay_t A = Ty.Void ∧ is_invocable_v P F [A] = false ∧
        is_invocable_v P F [] = true) ∧
    ¬ ((detail.invoke_t.primary_R P F Args).isSome = true ∧
        (detail.invoke_t.fallback_R cfg P F Args).isSome = true) ∧
    (∀ cfg2 : Config,
      detail.invoke_t.select cfg2 P F Args = detail.invoke_t.select cfg P F Args) := by
  have hfb : (detail.invoke_t.fallback_R cfg P F Args).isSome = true ↔
      ∃ A, Args = [A] ∧ decay_t A = Ty.Void ∧ is_invocable_v P F [A] = false ∧
        is_invocable_v P F [] = true := by
    constructor
    · intro h
      obtain ⟨R, hR⟩ := Option.isSome_iff_exists.1 h
      obtain ⟨A, hA, hd, hno, h0⟩ := (fallback_R_eq cfg P F Args R).1 hR
      exact ⟨A, hA, hd, hno, by simp [is_invocable_v, h0]⟩
    · rintro ⟨A, hA, hd, hno, h0⟩
      obtain ⟨R, hR⟩ := Option.isSome_iff_exists.1 h0
      rw [(fallback_R_eq cfg P F Args R).2 ⟨A, hA, hd, hno, hR⟩]
      rfl
  refine ⟨Iff.rfl, hfb, ?_, ?_⟩
  · rintro ⟨hp, hf⟩
    have hnone := fallback_R_none_of_invocable cfg P F Args hp
    rw [hnone] at hf
    cases hf
  · intro cfg2
    rw [select_eq, select_eq]

/-- Witness for C18: for the test's `get` and one placeholder argument the second overload is
viable and the first is not. -/
theorem invoke_dispatch_unambiguous_witness :
    (detail.invoke_t.fallback_R ⟨true, true, true⟩ test.program (deduce test.get)
        [Ty.Void]).isSome = true ∧
    (detail.invoke_t.primary_R test.program (deduce test.get) [Ty.Void]).isSome = false :=
  ⟨(invoke_dispatch_unambiguous ⟨true, true, true⟩ test.program (deduce test.get)
      [Ty.Void]).2.1.2 ⟨Ty.Void, rfl, rfl, rfl, rfl⟩,
   rfl⟩

/-- The query on a well-formed invocation, computed. -/
theorem void_result_t_of_select {σ : Type} (cfg : Config) (P : Program σ) (F : Ty)
    (Args : List Ty) (sel : detail.invoke_t.Selected)
    (h : detail.invoke_t.select cfg P F Args = some sel) :
    void_result_t cfg P F Args = some (unwrap_void cfg (wrap_void sel.R)) := by
  have hR : ∃ Ts, invoke_result_t P F Ts = some sel.R ∧
      (Ts = Args ∨ (Ts = [] ∧ ∃ A, Args = [A] ∧ decay_t A = Ty.Void)) := by
    rcases select_cases cfg P F Args sel h with ⟨hR, _⟩ | ⟨hA, _, hR, _⟩
    · exact ⟨Args, hR, Or.inl rfl⟩
    · exact ⟨[], hR, Or.inr ⟨rfl, hA⟩⟩
  obtain ⟨Ts, hTs, hshape⟩ := hR
  have hsome : (INVOKE P F Ts).isSome = true := by
    simp only [invoke_result_t] at hTs
    cases hI : INVOKE P F Ts with
    | none => simp [hI] at hTs
    | some ov => rfl
  obtain ⟨f, ts, hf, hts⟩ := INVOKE_isSome_operands P F Ts hsome
  have hops : ∃ as, operands declval Args = some as := by
    rcases hshape with rfl | ⟨_, A, hA, hd⟩
    · exact ⟨ts, hts⟩
    · obtain ⟨a, ha⟩ := declval_isSome_of_decay A hd
      exact ⟨[a], by rw [hA]; simp [operands, ha]⟩
  obtain ⟨as, has⟩ := hops
  have hadj : call_type sel.R = sel.R := invoke_result_t_call_type P F Ts sel.R hTs
  have hty : invoke_type cfg P f as = some (wrap_void sel.R) := by
    simp only [invoke_type, detail.invoke_t.return_type, select_deduce cfg P F Args f as hf has,
      h, Option.map_some']
    rw [← hadj, call_type_wrap_void]
  simp [void_result_t, hf, has, hty]

/-- C19. Characterisation of the result-type query: whenever `vd::invoke` is well-formed for
`F` and `Args`, with `R` the result type of the selected call, `void_result_t<F, Args...>` is
`void` exactly when `R` is cv `void` or `R` is `vd::Void` with any const, volatile or
reference qualification, and is `R` otherwise; so a callable returning the placeholder or a
reference to it is reported as returning `void`. -/
theorem void_result_t_characterisation {σ : Type} (cfg : Config) (P : Program σ) (F : Ty)
    (Args : List Ty) (sel : detail.invoke_t.Selected)
    (h : detail.invoke_t.select cfg P F Args = some sel) :
    (void_result_t cfg P F Args = some Ty.real_void ↔
      (is_void_v sel.R = true ∨ remove_cvref_t sel.R = Ty.Void)) ∧
    (¬ (is_void_v sel.R = true ∨ remove_cvref_t sel.R = Ty.Void) →
      void_result_t cfg P F Args = some sel.R) ∧
    (remove_cvref_t sel.R = Ty.Void → void_result_t cfg P F Args = some Ty.real_void) := by
  have hres := void_result_t_of_select cfg P F Args sel h
  have hvoid : (is_void_v sel.R = true ∨ remove_cvref_t sel.R = Ty.Void) →
      unwrap_void cfg (wrap_void sel.R) = Ty.real_void := by
    rintro (hv | hp)
    · exact unwrap_wrap_of_void cfg sel.R hv
    · have hnv : is_void_v sel.R = false := by
        cases hR : sel.R with
        | void c v => simp [hR, remove_cvref_t, Ty.Void] at hp
        | val t => rfl
        | lref t => rfl
        | rref t => rfl
      rw [wrap_void_of_other sel.R hnv, unwrap_void_of_placeholder cfg sel.R hp]
  have hother : ¬ (is_void_v sel.R = true ∨ remove_cvref_t sel.R = Ty.Void) →
      unwrap_void cfg (wrap_void sel.R) = sel.R ∧ sel.R ≠ Ty.real_void := by
    intro hn
    have hnv : is_void_v sel.R = false := by
      cases hv : is_void_v sel.R with
      | false => rfl
      | true => exact absurd (Or.inl hv) hn
    have hnp : remove_cvref_t sel.R ≠ Ty.Void := fun hp => hn (Or.inr hp)
    refine ⟨by rw [wrap_void_of_other sel.R hnv, unwrap_void_of_other cfg sel.R hnp], ?_⟩
    intro heq
    rw [heq] at hnv
    cases hnv
  refine ⟨⟨?_, ?_⟩, ?_, ?_⟩
  · intro hq
    by_contra hn
    obtain ⟨h1, h2⟩ := hother hn
    rw [hres, h1] at hq
    exact h2 (Option.some.inj hq)
  · intro hc
    rw [hres, hvoid hc]
  · intro hn
    rw [hres, (hother hn).1]
  · intro hp
    rw [hres, hvoid (Or.inr hp)]

/-- Witness for C19: a callable returning `vd::Void&` is reported as returning `void`, and the
test's `get`, returning `int`, as returning `int`. -/
theorem void_result_t_characterisation_witness :
    void_result_t ⟨true, true, true⟩ example_ref.program example_ref.F [] =
      some Ty.real_void ∧
    void_result_t ⟨false, false, false⟩ test.program (Ty.val test.get_t) [Ty.Void] =
      some (Ty.val Ty.int) :=
  ⟨(void_result_t_characterisation ⟨true, true, true⟩ example_ref.program example_ref.F []
      (detail.invoke_t.Selected.primary (Ty.lref ⟨Obj.Void, false, false⟩)) rfl).2.2 rfl,
   (void_result_t_characterisation ⟨false, false, false⟩ test.program (Ty.val test.get_t)
      [Ty.Void] (detail.invoke_t.Selected.fallback (Ty.val Ty.int)) rfl).2.1 (by decide)⟩

end vd
